import Mathlib

/-!
Verification development for the build-result comparison and reporting
engine of `arduino-mass-builder.py`.

The Python functions `find_builds`, `add_extra_info`, `create_report_data`,
`add_delta_info`, `build_report_row` and the `report` command body are
embedded as pure Lean functions.  Python dictionaries with optional keys
become structures with `Option` fields; raised exceptions become
`Except PyError`; the filesystem and the external size tool become an
explicit `Env`; `sys.stderr` output becomes an accumulated list of strings.
-/

/-- The Python exceptions that the embedded code can raise.
`calledProcessError` is `subprocess.CalledProcessError` (the only one the
source catches); `ioError` is the error raised by `open` on a missing file;
`valueError` is raised by `int('')`; `keyError` by `dict[missing]`. -/
inductive PyError where
  | calledProcessError
  | ioError
  | valueError
  | keyError
deriving DecidableEq, Repr

/-- The contents of one `build.json` marker file, exactly the keys written
by `do_compile`. -/
structure RawBuild where
  exit_code : Int
  sketch_dir : String
  sketch_name : String
  board : String
  buildset : String
deriving DecidableEq, Repr

/-- A build record dictionary during report processing: the raw marker
fields plus the optional keys that `create_report_data`, `add_extra_info`
and `add_delta_info` may add.  A missing dictionary key is `none`. -/
structure Build where
  exit_code : Int
  sketch_dir : String
  sketch_name : String
  board : String
  buildset : String
  status : Option String
  program_size : Option Int
  data_size : Option Int
  hash : Option String
  delta_status : Option String
  delta_program_size : Option Int
  delta_data_size : Option Int
  is_base : Option String
deriving DecidableEq, Repr

/-- A freshly parsed marker file as a record dictionary: only the raw keys
are present. -/
def to_build (r : RawBuild) : Build :=
  { exit_code := r.exit_code
    sketch_dir := r.sketch_dir
    sketch_name := r.sketch_name
    board := r.board
    buildset := r.buildset
    status := none
    program_size := none
    data_size := none
    hash := none
    delta_status := none
    delta_program_size := none
    delta_data_size := none
    is_base := none }

/-- The composite dataset key `(buildset, sketch_dir, board)`. -/
abbrev Key := String × String × String

/-- The dataset `data` built by `create_report_data`: a Python dict
modelled as an insertion-ordered association list with unique keys. -/
abbrev Dataset := List (Key × Build)

/-- Python `data[k]` returning `None`-like absence: first entry with the
given key. -/
def lookupD : Dataset → Key → Option Build
  | [], _ => none
  | p :: rest, k => if p.1 = k then some p.2 else lookupD rest k

/-- Python `data[k] = v`: replace the value at an existing key in place,
otherwise append at the end (dict insertion order; keys are unique, so
replacing the first occurrence is the dict behaviour). -/
def dict_insert : Dataset → Key → Build → Dataset
  | [], k, v => [(k, v)]
  | p :: rest, k, v =>
      if p.1 = k then (k, v) :: rest else p :: dict_insert rest k v

/-! ## Record store scanner (`find_builds`) -/

mutual
/-- A directory in the results tree: optionally a `build.json` marker
file (already parsed), plus named subdirectories. -/
inductive DirTree where
  | node (marker : Option RawBuild) (subs : Forest)

/-- The named subdirectories of a directory, in `os.walk` listing order. -/
inductive Forest where
  | nil
  | cons (name : String) (t : DirTree) (rest : Forest)
end

/-- The parsed `build.json` of a directory, when the marker file exists. -/
def DirTree.markerOf : DirTree → Option RawBuild
  | .node m _ => m

mutual
/-- `find_builds`: `os.walk` over the results tree.  A directory holding
`build.json` is yielded with its parsed record and its subdirectories are
pruned (`subdirs[:] = []`); other directories are traversed normally. -/
def find_builds : List String → DirTree → List (List String × RawBuild)
  | root, .node (some r) _ => [(root, r)]
  | root, .node none subs => find_builds_forest root subs

def find_builds_forest : List String → Forest → List (List String × RawBuild)
  | _, .nil => []
  | root, .cons name t rest =>
      find_builds (root ++ [name]) t ++ find_builds_forest root rest
end

mutual
/-- The subdirectory of a tree at a relative path (first name match). -/
def subtree : DirTree → List String → Option DirTree
  | t, [] => some t
  | .node _ subs, n :: p => subtree_forest subs n p

def subtree_forest : Forest → String → List String → Option DirTree
  | .nil, _, _ => none
  | .cons name t rest, n, p =>
      if name = n then subtree t p else subtree_forest rest n p
end

/-- Whether a forest contains a subdirectory with the given name. -/
def forest_has : Forest → String → Bool
  | .nil, _ => false
  | .cons name _ rest, n => name = n || forest_has rest n

mutual
/-- A real filesystem tree: sibling directory names are distinct. -/
def wf_tree : DirTree → Bool
  | .node _ subs => wf_forest subs

def wf_forest : Forest → Bool
  | .nil => true
  | .cons name t rest => !forest_has rest name && wf_tree t && wf_forest rest
end

/-! ## Artifact measurer (`add_extra_info`) -/

/-- The external world seen by the measurer: the size tool invoked on an
ELF path either raises `CalledProcessError` or produces stdout lines, and
a hex artifact path either has a SHA-1 hex digest or `open` raises. -/
structure Env where
  size_tool : List String → Except Unit (List String)
  hex_hash : List String → Option String

/-- `path / 'build' / (sketch_name + '.cpp.elf')`. -/
def elf_path (path : List String) (b : Build) : List String :=
  path ++ ["build", b.sketch_name ++ ".cpp.elf"]

/-- `path / 'build' / (sketch_name + '.cpp.hex')`. -/
def hex_path (path : List String) (b : Build) : List String :=
  path ++ ["build", b.sketch_name ++ ".cpp.hex"]

/-- `re.match(b'^<pre> *([0-9]*) bytes$', line)`: the line must be the
given literal, then any number of spaces, then the captured digit run,
then the literal ` bytes`.  Returns the captured (possibly empty) digit
string. -/
def match_size_line (pre : String) (line : String) : Option String :=
  let lcs := line.data
  let pcs := pre.data
  if lcs.take pcs.length = pcs then
    let rest := lcs.drop pcs.length
    let suffix := " bytes".data
    if rest.drop (rest.length - suffix.length) = suffix ∧ suffix.length ≤ rest.length then
      let t := rest.take (rest.length - suffix.length)
      let d := t.dropWhile (· = ' ')
      if d.all Char.isDigit then some (String.mk d) else none
    else none
  else none

/-- Python `int(digits)` on a captured `[0-9]*` group: `ValueError` on the
empty capture, otherwise the numeric value. -/
def int_of_digits (d : String) : Except PyError Int :=
  if d = "" then .error .valueError
  else .ok (Int.ofNat (d.data.foldl (fun n c => 10 * n + (c.toNat - Char.toNat (Char.ofNat 48))) 0))

/-- Sequencing of an exception-raising step: an already-raised exception
propagates, otherwise the next step runs. -/
def except_step {α β : Type} (x : Except PyError α) (f : α → Except PyError β) :
    Except PyError β :=
  match x with
  | .error e => .error e
  | .ok a => f a

/-- A Python `for` loop whose body may raise: the first raised exception
aborts the remaining iterations. -/
def except_fold {α σ : Type} (f : σ → α → Except PyError σ)
    (init : Except PyError σ) (xs : List α) : Except PyError σ :=
  xs.foldl (fun acc x => except_step acc (fun s => f s x)) init

/-- The `Program:` pattern check of one loop iteration in
`add_extra_info`: on a match, store the parsed program size. -/
def set_prog_size (b : Build) (line : String) : Except PyError Build :=
  match match_size_line "Program:" line with
  | some d => (int_of_digits d).map (fun n => { b with program_size := some n })
  | none => .ok b

/-- The `Data:` pattern check of one loop iteration in `add_extra_info`:
on a match, store the parsed data size. -/
def set_data_size (b : Build) (line : String) : Except PyError Build :=
  match match_size_line "Data:" line with
  | some d => (int_of_digits d).map (fun n => { b with data_size := some n })
  | none => .ok b

/-- One iteration of the output-parsing loop in `add_extra_info`: try the
`Program:` pattern, then the `Data:` pattern, storing any match. -/
def add_size_line (b : Build) (line : String) : Except PyError Build :=
  match set_prog_size b line with
  | .error e => .error e
  | .ok b1 => set_data_size b1 line

/-- The `for line in ... .splitlines()` loop of `add_extra_info`,
propagating any raised exception. -/
def parse_size_lines (b : Build) (lines : List String) : Except PyError Build :=
  except_fold add_size_line (.ok b) lines

/-- `add_extra_info`: run the size tool over the ELF artifact, parse its
output lines, then hash the hex artifact.  Raises `CalledProcessError`
when the tool exits nonzero (before any parsing), and `ioError` when the
hex artifact cannot be opened (after the sizes were parsed). -/
def add_extra_info (env : Env) (path : List String) (build : Build) :
    Except PyError Build :=
  match env.size_tool (elf_path path build) with
  | .error _ => .error .calledProcessError
  | .ok lines =>
      match parse_size_lines build lines with
      | .error e => .error e
      | .ok b =>
          match env.hex_hash (hex_path path build) with
          | none => .error .ioError
          | some h => .ok { b with hash := some h }

/-! ## Dataset builder (`create_report_data`) -/

/-- The per-record body of the `create_report_data` loop: mark
`Failed to compile` on a nonzero exit code, otherwise try the measurement
step, catching only `CalledProcessError` into `Failed to get size`; a
record still without a status is `OK`. -/
def process_build (env : Env) (path : List String) (raw : RawBuild) :
    Except PyError Build :=
  let b := to_build raw
  let b := if b.exit_code ≠ 0 then { b with status := some "Failed to compile" } else b
  let step : Except PyError Build :=
    if b.status = none then
      match add_extra_info env path b with
      | .error .calledProcessError => .ok { b with status := some "Failed to get size" }
      | .error e => .error e
      | .ok b' => .ok b'
    else .ok b
  match step with
  | .error e => .error e
  | .ok b => .ok (if b.status = none then { b with status := some "OK" } else b)

/-- One iteration of the `create_report_data` loop: process the scanned
record and insert it at its composite key, accumulating the buildset
name; any uncaught exception aborts the whole run. -/
def create_step (env : Env) (acc : Dataset × Finset String)
    (pr : List String × RawBuild) : Except PyError (Dataset × Finset String) :=
  except_step (process_build env pr.1 pr.2) (fun b =>
    .ok (dict_insert acc.1 (b.buildset, b.sketch_dir, b.board) b,
         insert b.buildset acc.2))

/-- `create_report_data`: scan the tree, process every record, and build
the keyed dataset plus the set of observed buildset names. -/
def create_report_data (env : Env) (root : List String) (tree : DirTree) :
    Except PyError (Dataset × Finset String) :=
  except_fold (create_step env) (.ok (([] : Dataset), (∅ : Finset String)))
    (find_builds root tree)

/-! ## Delta engine (`add_delta_info`) -/

/-- The warning written to `sys.stderr` when a record has no baseline
counterpart. -/
def no_base_warning (b : Build) : String :=
  b.buildset ++ " / " ++ b.sketch_dir ++ " / " ++ b.board ++
    ": No corresponding build in base buildset found, cannot compare\n"

/-- The comparison body of the `add_delta_info` loop once the baseline
counterpart `bb` was found: classify the status transition, then compute
the size deltas when both records are `OK`.  Dictionary accesses
`build[...]`/`base_build[...]` raise `keyError` on absent keys. -/
def classify_with_base (b bb : Build) : Except PyError (Build × List String) :=
  match b.status, bb.status with
  | none, _ => .error .keyError
  | some _, none => .error .keyError
  | some s, some sb =>
      if s = "OK" ∧ sb = "OK" then
        match b.hash, bb.hash with
        | none, _ => .error .keyError
        | some _, none => .error .keyError
        | some h, some hb =>
            let ds := if h = hb then "Identical" else "Modified"
            let b1 := { b with delta_status := some ds }
            match b1.program_size, bb.program_size,
                  b1.data_size, bb.data_size with
            | some p, some pb, some d, some db =>
                .ok ({ b1 with delta_program_size := some (p - pb),
                               delta_data_size := some (d - db) }, [])
            | _, _, _, _ => .error .keyError
      else
        let ds := if s = "OK" then "Fixed"
                  else if sb = "OK" then "Broken"
                  else "Still broken"
        .ok ({ b with delta_status := some ds }, [])

/-- The body of the `add_delta_info` loop for one record, reading the
baseline counterpart from the current dataset `m`.  Returns the annotated
record and the stderr lines it wrote. -/
def annotate_build (m : Dataset) (base : String) (b0 : Build) :
    Except PyError (Build × List String) :=
  let b := { b0 with is_base := some (if b0.buildset = base then "Yes" else "No") }
  if b.buildset = base then
    match b.status with
    | none => .error .keyError
    | some s =>
        if s = "OK" then
          .ok ({ b with delta_status := some "Is base",
                        delta_program_size := some 0,
                        delta_data_size := some 0 }, [])
        else
          .ok ({ b with delta_status := some "Is base" }, [])
  else
    match lookupD m (base, b.sketch_dir, b.board) with
    | none => .ok ({ b with delta_status := some "No base" }, [no_base_warning b])
    | some bb => classify_with_base b bb

/-- One step of the `add_delta_info` iteration over the dataset keys:
annotate the current value at the key and store it back. -/
def delta_step (base : String) (acc : Dataset × List String) (k : Key) :
    Except PyError (Dataset × List String) :=
  match lookupD acc.1 k with
  | none => .ok acc
  | some b =>
      match annotate_build acc.1 base b with
      | .error e => .error e
      | .ok r => .ok (dict_insert acc.1 k r.1, acc.2 ++ r.2)

/-- `add_delta_info`: iterate over `data.items()` in insertion order,
annotating every record in place.  Returns the annotated dataset and the
stderr warnings, or the first uncaught exception. -/
def add_delta_info (data : Dataset) (base : String) :
    Except PyError (Dataset × List String) :=
  except_fold (delta_step base) (.ok (data, [])) (data.map Prod.fst)

/-! ## Report renderer (`report` / `build_report_row`) -/

def report_attrs : List String :=
  ["buildset", "sketch_dir", "board", "status", "program_size", "data_size"]

def delta_attrs : List String :=
  ["delta_status", "delta_program_size", "delta_data_size", "is_base"]

/-- `report_headers.get`, the human-readable column labels. -/
def header_get (a : String) : Option String :=
  if a = "buildset" then some "Buildset"
  else if a = "sketch_dir" then some "Sketch"
  else if a = "board" then some "Board"
  else if a = "status" then some "Status"
  else if a = "program_size" then some "Program size"
  else if a = "data_size" then some "Data size"
  else if a = "delta_status" then some "Δ status"
  else if a = "delta_program_size" then some "Δ program size"
  else if a = "delta_data_size" then some "Δ data size"
  else if a = "is_base" then some "In base buildset"
  else none

/-- `build.get(attr)`: the record dictionary as a string-keyed lookup,
with integer values rendered the way `csv.writer` renders Python ints. -/
def build_get (b : Build) (a : String) : Option String :=
  if a = "buildset" then some b.buildset
  else if a = "sketch_dir" then some b.sketch_dir
  else if a = "sketch_name" then some b.sketch_name
  else if a = "board" then some b.board
  else if a = "exit_code" then some (toString b.exit_code)
  else if a = "status" then b.status
  else if a = "program_size" then b.program_size.map toString
  else if a = "data_size" then b.data_size.map toString
  else if a = "hash" then b.hash
  else if a = "delta_status" then b.delta_status
  else if a = "delta_program_size" then b.delta_program_size.map toString
  else if a = "delta_data_size" then b.delta_data_size.map toString
  else if a = "is_base" then b.is_base
  else none

/-- Python truthiness of `opts.base_set`: `None` and the empty string are
falsy. -/
def truthy : Option String → Bool
  | none => false
  | some s => !(s = "")

/-- `build_report_row`: the base columns, extended with the delta columns
only when a baseline is designated; missing keys render as empty cells. -/
def build_report_row (get : String → Option String) (delta : Option String) :
    List String :=
  (report_attrs.map (fun a => (get a).getD "")) ++
    (if truthy delta then delta_attrs.map (fun a => (get a).getD "") else [])

/-- The baseline auto-selection in `report`: when more than one buildset
was observed, none is designated, and a buildset named `base` exists, use
`base`; otherwise keep the given designation. -/
def select_base_set (bs : Option String) (buildsets : Finset String) :
    Option String :=
  if 1 < buildsets.card ∧ truthy bs = false ∧ "base" ∈ buildsets then
    some "base"
  else bs

/-- The `if opts.base_set: add_delta_info(...)` step of `report`. -/
def run_delta (data : Dataset) (bs : Option String) :
    Except PyError (Dataset × List String) :=
  match bs with
  | none => .ok (data, [])
  | some s => if s = "" then .ok (data, []) else add_delta_info data s

/-- Python string comparison `a < b`: lexicographic on code points. -/
def str_lt_b : List Char → List Char → Bool
  | [], [] => false
  | [], _ :: _ => true
  | _ :: _, [] => false
  | a :: as, b :: bs => if a < b then true else if a = b then str_lt_b as bs else false

/-- Python `a < b` on strings. -/
def str_lt (a b : String) : Prop := str_lt_b a.data b.data = true

/-- Python `a <= b` on strings. -/
def str_le (a b : String) : Prop := str_lt a b ∨ a = b

/-- Python tuple comparison `k1 <= k2` on the composite key. -/
def key_le (a b : Key) : Prop :=
  str_lt a.1 b.1 ∨ (a.1 = b.1 ∧ (str_lt a.2.1 b.2.1 ∨ (a.2.1 = b.2.1 ∧ str_le a.2.2 b.2.2)))

/-- Strict Python tuple comparison `k1 < k2` on the composite key. -/
def key_lt (a b : Key) : Prop :=
  str_lt a.1 b.1 ∨ (a.1 = b.1 ∧ (str_lt a.2.1 b.2.1 ∨ (a.2.1 = b.2.1 ∧ str_lt a.2.2 b.2.2)))

instance : DecidableRel str_lt := fun _ _ => by
  unfold str_lt; infer_instance

instance : DecidableRel str_le := fun _ _ => by
  unfold str_le; infer_instance

instance : DecidableRel key_le := fun _ _ => by
  unfold key_le; infer_instance

instance : DecidableRel key_lt := fun _ _ => by
  unfold key_lt; infer_instance

/-- `sorted(data.items())`: with unique keys, Python tuple comparison on
`(key, value)` pairs orders by key. -/
def sort_data (d : Dataset) : Dataset :=
  d.insertionSort (fun a b => key_le a.1 b.1)

/-- The rows written to `data.csv`: one header row, then one row per
record in ascending key order. -/
def report_rows (data : Dataset) (bs : Option String) : List (List String) :=
  build_report_row header_get bs ::
    (sort_data data).map (fun kb => build_report_row (build_get kb.2) bs)

/-- The whole `report` command body: build the dataset, auto-select the
baseline, annotate deltas when designated, and render the rows.  Returns
the rows and the stderr warnings, or the uncaught exception that aborted
the run. -/
def report_pipeline (env : Env) (root : List String) (tree : DirTree)
    (bs0 : Option String) : Except PyError (List (List String) × List String) :=
  match create_report_data env root tree with
  | .error e => .error e
  | .ok (data, buildsets) =>
      let bs := select_base_set bs0 buildsets
      match run_delta data bs with
      | .error e => .error e
      | .ok r => .ok (report_rows r.1 bs, r.2)

/-! ## Proof-support definitions -/

/-- The fields of a record that `add_delta_info` reads (its own identity
and key fields, plus the status/size/hash fields of the baseline
counterpart).  The delta engine never writes any of these. -/
def read_fields (b : Build) :
    String × String × String × Int × String × Option String × Option String ×
      Option Int × Option Int :=
  (b.buildset, b.sketch_dir, b.board, b.exit_code, b.sketch_name,
   b.status, b.hash, b.program_size, b.data_size)

/-- The shape of every record produced by `process_build`: one of the
three statuses, hash present exactly on `OK`, sizes only on `OK`, and no
delta annotations yet. -/
def good_build (b : Build) : Prop :=
  (b.status = some "OK" ∨ b.status = some "Failed to compile" ∨
     b.status = some "Failed to get size") ∧
  (b.hash.isSome ↔ b.status = some "OK") ∧
  (b.program_size.isSome → b.status = some "OK") ∧
  (b.data_size.isSome → b.status = some "OK") ∧
  b.delta_status = none ∧ b.delta_program_size = none ∧
  b.delta_data_size = none ∧ b.is_base = none

/-- The composite key as it appears in the first three cells of a
rendered row. -/
def row_key (row : List String) : Key :=
  (row.getD 0 "", row.getD 1 "", row.getD 2 "")

/-- The key of a scanned record, as `create_report_data` computes it. -/
def scanned_key (pr : List String × RawBuild) : Key :=
  (pr.2.buildset, pr.2.sketch_dir, pr.2.board)

/-! ## Concrete inputs used by witnesses and counterexamples -/

/-- A raw record that compiled successfully. -/
def cx_raw0 : RawBuild :=
  { exit_code := 0, sketch_dir := "blink", sketch_name := "Blink",
    board := "uno", buildset := "base" }

/-- A successfully compiled raw record in buildset `next`. -/
def cx_raw_next : RawBuild := { cx_raw0 with buildset := "next" }

/-- A raw record whose compile failed. -/
def cx_raw_fail : RawBuild := { cx_raw0 with exit_code := 1 }

/-- A failed raw record in buildset `next`. -/
def cx_raw_fail_next : RawBuild := { cx_raw_fail with buildset := "next" }

/-- Environment whose size tool succeeds but prints no recognizable
pattern lines; the hex artifact exists. -/
def cx_env_empty : Env :=
  { size_tool := fun _ => .ok [], hex_hash := fun _ => some "h0" }

/-- Environment whose size tool succeeds with no pattern lines and whose
hex artifact is missing. -/
def cx_env_hexmiss : Env :=
  { size_tool := fun _ => .ok [], hex_hash := fun _ => none }

/-- Environment whose size tool exits nonzero. -/
def cx_env_fail : Env :=
  { size_tool := fun _ => .error (), hex_hash := fun _ => some "h0" }

/-- Environment whose size tool prints both expected pattern lines. -/
def cx_env_good : Env :=
  { size_tool := fun _ => .ok ["Program:    1000 bytes", "Data:      200 bytes"],
    hex_hash := fun _ => some "h0" }

/-- A results tree with a single completed record at the root. -/
def cx_tree0 : DirTree := .node (some cx_raw0) .nil

/-- A completed record directory that itself contains another completed
record directory. -/
def cx_tree_nested : DirTree :=
  .node (some cx_raw0) (.cons "sub" (.node (some cx_raw_next) .nil) .nil)

/-- Two record directories holding records with the same composite key. -/
def cx_tree_dup : DirTree :=
  .node none (.cons "a" (.node (some cx_raw_fail) .nil)
    (.cons "b" (.node (some cx_raw_fail) .nil) .nil))

/-- Two record directories with distinct composite keys. -/
def cx_tree_two : DirTree :=
  .node none (.cons "a" (.node (some cx_raw_fail) .nil)
    (.cons "b" (.node (some cx_raw_fail_next) .nil) .nil))

/-- A processed `OK` record in buildset `base` with both sizes present. -/
def cx_build_ok_base : Build :=
  { exit_code := 0, sketch_dir := "blink", sketch_name := "Blink",
    board := "uno", buildset := "base", status := some "OK",
    program_size := some 1000, data_size := some 200, hash := some "h0",
    delta_status := none, delta_program_size := none,
    delta_data_size := none, is_base := none }

/-- A processed `OK` record in buildset `next` with different sizes and a
different content hash. -/
def cx_build_ok_next : Build :=
  { cx_build_ok_base with
    buildset := "next"
    program_size := some 1200
    hash := some "h1" }

/-- A two-record dataset: matching `base` and `next` records. -/
def cx_data2 : Dataset :=
  [(("base", "blink", "uno"), cx_build_ok_base),
   (("next", "blink", "uno"), cx_build_ok_next)]

/-- A one-record dataset holding only the `next` record. -/
def cx_data1 : Dataset := [(("next", "blink", "uno"), cx_build_ok_next)]

/-! ## Association list lemmas -/

theorem lookupD_eq_none_iff (m : Dataset) (k : Key) :
    lookupD m k = none ↔ k ∉ m.map Prod.fst := by
  induction m with
  | nil => simp [lookupD]
  | cons p rest ih =>
      by_cases h : p.1 = k
      · simp [lookupD, h]
      · simp [lookupD, h, ih, Ne.symm h]

theorem mem_of_lookupD {m : Dataset} {k : Key} {b : Build}
    (h : lookupD m k = some b) : (k, b) ∈ m := by
  induction m with
  | nil => simp [lookupD] at h
  | cons p rest ih =>
      by_cases hk : p.1 = k
      · rw [lookupD, if_pos hk] at h
        have hb : p.2 = b := Option.some.inj h
        have hp : p = (k, b) := by
          rcases p with ⟨pk, pv⟩
          cases hk
          cases hb
          rfl
        exact hp ▸ List.mem_cons_self _ _
      · simp only [lookupD, hk, if_neg, not_false_iff] at h
        exact List.mem_cons_of_mem _ (ih h)

theorem mem_keys_of_lookupD {m : Dataset} {k : Key} {b : Build}
    (h : lookupD m k = some b) : k ∈ m.map Prod.fst := by
  by_contra hk
  rw [← lookupD_eq_none_iff] at hk
  rw [h] at hk
  exact Option.noConfusion hk

theorem lookupD_of_mem {m : Dataset} {k : Key} {b : Build}
    (hnd : (m.map Prod.fst).Nodup) (h : (k, b) ∈ m) : lookupD m k = some b := by
  induction m with
  | nil => simp at h
  | cons p rest ih =>
      simp only [List.map_cons, List.nodup_cons] at hnd
      rcases List.mem_cons.mp h with h | h
      · subst h
        simp [lookupD]
      · have hk : p.1 ≠ k := by
          intro he
          exact hnd.1 (he ▸ (List.mem_map.mpr ⟨(k, b), h, rfl⟩))
        simp only [lookupD, hk, if_neg, not_false_iff]
        exact ih hnd.2 h

theorem mem_dict_insert {m : Dataset} {k : Key} {v : Build} {p : Key × Build}
    (h : p ∈ dict_insert m k v) : p ∈ m ∨ p = (k, v) := by
  induction m with
  | nil => simp [dict_insert] at h; right; exact h
  | cons q rest ih =>
      by_cases hq : q.1 = k
      · simp only [dict_insert, hq, if_pos] at h
        rcases List.mem_cons.mp h with h | h
        · right; exact h
        · left; exact List.mem_cons_of_mem _ h
      · simp only [dict_insert, hq, if_neg, not_false_iff] at h
        rcases List.mem_cons.mp h with h | h
        · left; exact h ▸ List.mem_cons_self _ _
        · rcases ih h with h | h
          · left; exact List.mem_cons_of_mem _ h
          · right; exact h

theorem dict_insert_map_fst_of_mem {m : Dataset} {k : Key} (v : Build)
    (h : k ∈ m.map Prod.fst) :
    (dict_insert m k v).map Prod.fst = m.map Prod.fst := by
  induction m with
  | nil => simp at h
  | cons q rest ih =>
      by_cases hq : q.1 = k
      · simp [dict_insert, hq]
      · have h' : k ∈ rest.map Prod.fst := by
          rw [List.map_cons, List.mem_cons] at h
          rcases h with h | h
          · exact absurd h.symm hq
          · exact h
        simp [dict_insert, hq, ih h']

theorem dict_insert_map_fst_of_not_mem {m : Dataset} {k : Key} (v : Build)
    (h : k ∉ m.map Prod.fst) :
    (dict_insert m k v).map Prod.fst = m.map Prod.fst ++ [k] := by
  induction m with
  | nil => simp [dict_insert]
  | cons q rest ih =>
      simp only [List.map_cons, List.mem_cons] at h
      push_neg at h
      simp [dict_insert, Ne.symm h.1, ih h.2]

theorem nodup_dict_insert {m : Dataset} {k : Key} (v : Build)
    (hnd : (m.map Prod.fst).Nodup) :
    ((dict_insert m k v).map Prod.fst).Nodup := by
  by_cases h : k ∈ m.map Prod.fst
  · rw [dict_insert_map_fst_of_mem v h]; exact hnd
  · rw [dict_insert_map_fst_of_not_mem v h]
    rw [List.nodup_append]
    exact ⟨hnd, List.nodup_singleton _, by simpa using h⟩

theorem lookupD_dict_insert_self (m : Dataset) (k : Key) (v : Build) :
    lookupD (dict_insert m k v) k = some v := by
  induction m with
  | nil => simp [dict_insert, lookupD]
  | cons q rest ih =>
      by_cases hq : q.1 = k
      · simp [dict_insert, hq, lookupD]
      · simp [dict_insert, hq, lookupD, ih]

theorem lookupD_dict_insert_ne (m : Dataset) {k k' : Key} (v : Build)
    (h : k' ≠ k) : lookupD (dict_insert m k v) k' = lookupD m k' := by
  induction m with
  | nil => simp [dict_insert, lookupD, Ne.symm h]
  | cons q rest ih =>
      by_cases hq : q.1 = k
      · have hq' : q.1 ≠ k' := by rw [hq]; exact fun he => h he.symm
        simp [dict_insert, hq, lookupD, Ne.symm h, hq']
      · by_cases hq' : q.1 = k'
        · simp [dict_insert, hq, lookupD, hq', h]
        · simp [dict_insert, hq, lookupD, hq', ih]

/-! ## Exception-fold lemmas -/

theorem except_fold_nil {α σ : Type} (f : σ → α → Except PyError σ)
    (init : Except PyError σ) : except_fold f init [] = init := rfl

theorem except_fold_error {α σ : Type} (f : σ → α → Except PyError σ)
    (e : PyError) (xs : List α) :
    except_fold f (.error e) xs = .error e := by
  induction xs with
  | nil => rfl
  | cons x xs ih =>
      unfold except_fold at ih ⊢
      simpa [except_step] using ih

theorem except_fold_cons {α σ : Type} (f : σ → α → Except PyError σ)
    (s : σ) (x : α) (xs : List α) :
    except_fold f (.ok s) (x :: xs) = except_fold f (f s x) xs := by
  unfold except_fold
  simp [except_step]

/-! ## Measurer and dataset-builder specifications -/

theorem set_prog_size_spec {b : Build} {line : String} {b1 : Build}
    (h : set_prog_size b line = .ok b1) :
    b1 = { b with program_size := b1.program_size } := by
  unfold set_prog_size at h
  rcases hm : match_size_line "Program:" line with _ | d <;> rw [hm] at h
  · cases h
    rfl
  · unfold int_of_digits at h
    by_cases hd : d = ""
    · simp [hd, Except.map] at h
    · simp only [hd, if_neg, not_false_iff, Except.map] at h
      cases h
      rfl

theorem set_data_size_spec {b : Build} {line : String} {b1 : Build}
    (h : set_data_size b line = .ok b1) :
    b1 = { b with data_size := b1.data_size } := by
  unfold set_data_size at h
  rcases hm : match_size_line "Data:" line with _ | d <;> rw [hm] at h
  · cases h
    rfl
  · unfold int_of_digits at h
    by_cases hd : d = ""
    · simp [hd, Except.map] at h
    · simp only [hd, if_neg, not_false_iff, Except.map] at h
      cases h
      rfl

theorem add_size_line_spec {b : Build} {line : String} {b1 : Build}
    (h : add_size_line b line = .ok b1) :
    b1 = { b with program_size := b1.program_size,
                  data_size := b1.data_size } := by
  unfold add_size_line at h
  rcases hm : set_prog_size b line with e | bm <;> rw [hm] at h
  · exact Except.noConfusion h
  · have h1 := set_prog_size_spec hm
    have h2 := set_data_size_spec h
    rw [h2, h1]

theorem parse_size_lines_spec {lines : List String} {b b1 : Build}
    (h : parse_size_lines b lines = .ok b1) :
    b1 = { b with program_size := b1.program_size,
                  data_size := b1.data_size } := by
  induction lines generalizing b with
  | nil =>
      unfold parse_size_lines at h
      rw [except_fold_nil] at h
      cases h
      rfl
  | cons l ls ih =>
      unfold parse_size_lines at h
      rw [except_fold_cons] at h
      rcases hm : add_size_line b l with e | bm <;> rw [hm] at h
      · rw [except_fold_error] at h
        exact Except.noConfusion h
      · have h1 := add_size_line_spec hm
        have h2 := ih h
        rw [h2, h1]

theorem add_extra_info_spec {env : Env} {path : List String} {b b1 : Build}
    (h : add_extra_info env path b = .ok b1) :
    b1 = { b with program_size := b1.program_size,
                  data_size := b1.data_size,
                  hash := b1.hash } ∧ b1.hash.isSome := by
  unfold add_extra_info at h
  split at h
  · exact Except.noConfusion h
  · split at h
    · exact Except.noConfusion h
    · rename_i bf hf
      split at h
      · exact Except.noConfusion h
      · rename_i hv hh
        cases h
        have h1 := parse_size_lines_spec hf
        constructor
        · rw [h1]
        · rfl

theorem process_build_spec {env : Env} {path : List String} {raw : RawBuild}
    {b : Build} (h : process_build env path raw = .ok b) :
    b.buildset = raw.buildset ∧ b.sketch_dir = raw.sketch_dir ∧
    b.board = raw.board ∧ b.sketch_name = raw.sketch_name ∧
    b.exit_code = raw.exit_code ∧ good_build b := by
  unfold process_build at h
  by_cases hc : raw.exit_code = 0
  · simp only [to_build, hc, ne_eq, not_true_eq_false, if_false, ite_false,
      reduceIte] at h
    split at h
    · exact Except.noConfusion h
    · rename_i b1 heq
      split at heq
      · cases heq
        simp only [reduceIte] at h
        cases h
        refine ⟨rfl, rfl, rfl, rfl, hc.symm, ?_⟩
        unfold good_build
        refine ⟨Or.inr (Or.inr rfl), ?_, ?_, ?_, rfl, rfl, rfl, rfl⟩ <;> simp
      · exact Except.noConfusion heq
      · rename_i b' hf
        obtain rfl : b' = b1 := Except.ok.inj heq
        obtain ⟨h1, h2⟩ := add_extra_info_spec hf
        have hs : b'.status = none := by rw [h1]
        rw [if_pos hs] at h
        cases h
        refine ⟨by rw [h1], by rw [h1], by rw [h1], by rw [h1],
          by rw [h1]; exact hc.symm, ?_⟩
        unfold good_build
        exact ⟨Or.inl rfl, ⟨fun _ => rfl, fun _ => h2⟩, fun _ => rfl,
          fun _ => rfl, by rw [h1], by rw [h1], by rw [h1], by rw [h1]⟩
  · simp only [to_build, hc, ne_eq, not_false_iff, if_true, ite_true,
      reduceIte] at h
    cases h
    refine ⟨rfl, rfl, rfl, rfl, rfl, ?_⟩
    unfold good_build
    refine ⟨Or.inr (Or.inl rfl), ?_, ?_, ?_, rfl, rfl, rfl, rfl⟩ <;> simp

theorem create_fold_spec {env : Env} (prs : List (List String × RawBuild)) :
    ∀ (acc res : Dataset × Finset String),
    except_fold (create_step env) (.ok acc) prs = .ok res →
    (∀ p ∈ acc.1, p.1 = (p.2.buildset, p.2.sketch_dir, p.2.board) ∧ good_build p.2) →
    (acc.1.map Prod.fst).Nodup →
    (∀ p ∈ res.1, p.1 = (p.2.buildset, p.2.sketch_dir, p.2.board) ∧ good_build p.2) ∧
      (res.1.map Prod.fst).Nodup := by
  induction prs with
  | nil =>
      intro acc res h hmem hnd
      rw [except_fold_nil] at h
      cases h
      exact ⟨hmem, hnd⟩
  | cons pr prs ih =>
      intro acc res h hmem hnd
      rw [except_fold_cons] at h
      rcases hp : process_build env pr.1 pr.2 with e | b
      · rw [create_step, hp, except_step, except_fold_error] at h
        exact Except.noConfusion h
      · rw [create_step, hp, except_step] at h
        refine ih _ res h ?_ ?_
        · intro p hpm
          rcases mem_dict_insert hpm with hpm | hpm
          · exact hmem p hpm
          · subst hpm
            obtain ⟨h1, h2, h3, _, _, h6⟩ := process_build_spec hp
            exact ⟨rfl, h6⟩
        · exact nodup_dict_insert _ hnd

theorem create_fold_keys {env : Env} (prs : List (List String × RawBuild)) :
    ∀ (acc res : Dataset × Finset String),
    except_fold (create_step env) (.ok acc) prs = .ok res →
    (acc.1.map Prod.fst ++ prs.map scanned_key).Nodup →
    res.1.map Prod.fst = acc.1.map Prod.fst ++ prs.map scanned_key := by
  induction prs with
  | nil =>
      intro acc res h hnd
      rw [except_fold_nil] at h
      cases h
      simp
  | cons pr prs ih =>
      intro acc res h hnd
      rw [except_fold_cons] at h
      rcases hp : process_build env pr.1 pr.2 with e | b
      · rw [create_step, hp, except_step, except_fold_error] at h
        exact Except.noConfusion h
      · rw [create_step, hp, except_step] at h
        obtain ⟨h1, h2, h3, _, _, _⟩ := process_build_spec hp
        have hkey : (b.buildset, b.sketch_dir, b.board) = scanned_key pr := by
          rw [h1, h2, h3]; rfl
        have hnotin : scanned_key pr ∉ acc.1.map Prod.fst := by
          intro hin
          rw [List.nodup_append] at hnd
          exact hnd.2.2 hin (List.mem_map_of_mem _ (List.mem_cons_self pr prs))
        have hins : (dict_insert acc.1 (b.buildset, b.sketch_dir, b.board) b).map Prod.fst
            = acc.1.map Prod.fst ++ [scanned_key pr] := by
          rw [hkey]
          exact dict_insert_map_fst_of_not_mem _ hnotin
        have := ih _ res h (by
          rw [hins]
          simpa [List.append_assoc] using hnd)
        rw [this, hins]
        simp [List.append_assoc]

theorem create_report_data_spec {env : Env} {root : List String} {tree : DirTree}
    {data : Dataset} {sets : Finset String}
    (h : create_report_data env root tree = .ok (data, sets)) :
    (∀ p ∈ data, p.1 = (p.2.buildset, p.2.sketch_dir, p.2.board) ∧ good_build p.2) ∧
      (data.map Prod.fst).Nodup := by
  unfold create_report_data at h
  have := create_fold_spec (find_builds root tree) _ (data, sets) h
    (by intro p hp; simp at hp) (by simp)
  exact this

theorem create_report_data_keys {env : Env} {root : List String} {tree : DirTree}
    {data : Dataset} {sets : Finset String}
    (h : create_report_data env root tree = .ok (data, sets))
    (hnd : ((find_builds root tree).map scanned_key).Nodup) :
    data.map Prod.fst = (find_builds root tree).map scanned_key := by
  unfold create_report_data at h
  have := create_fold_keys (find_builds root tree) _ (data, sets) h (by simpa using hnd)
  simpa using this

/-! ## Delta engine characterization -/

theorem read_fields_eq_iff {a b : Build} : read_fields a = read_fields b ↔
    (a.buildset = b.buildset ∧ a.sketch_dir = b.sketch_dir ∧ a.board = b.board ∧
     a.exit_code = b.exit_code ∧ a.sketch_name = b.sketch_name ∧
     a.status = b.status ∧ a.hash = b.hash ∧
     a.program_size = b.program_size ∧ a.data_size = b.data_size) := by
  unfold read_fields
  simp [Prod.ext_iff]

theorem classify_congr {b bb bb2 : Build}
    (h : read_fields bb = read_fields bb2) :
    classify_with_base b bb = classify_with_base b bb2 := by
  obtain ⟨_, _, _, _, _, hst, hh, hp, hd⟩ := read_fields_eq_iff.mp h
  unfold classify_with_base
  rw [hst, hh, hp, hd]

theorem classify_read_fields {b bb b1 : Build} {w : List String}
    (h : classify_with_base b bb = .ok (b1, w)) :
    read_fields b1 = read_fields b := by
  unfold classify_with_base at h
  split at h
  · exact Except.noConfusion h
  · exact Except.noConfusion h
  · split at h
    · split at h
      · exact Except.noConfusion h
      · exact Except.noConfusion h
      · dsimp only at h
        split at h
        · cases h
          rfl
        · exact Except.noConfusion h
    · cases h
      rfl

theorem annotate_build_read_fields {m : Dataset} {base : String}
    {b0 b1 : Build} {w : List String}
    (h : annotate_build m base b0 = .ok (b1, w)) :
    read_fields b1 = read_fields b0 := by
  unfold annotate_build at h
  dsimp only at h
  by_cases hb : b0.buildset = base
  · simp only [hb, if_true, eq_self_iff_true, reduceIte] at h
    split at h
    · exact Except.noConfusion h
    · split at h
      · cases h
        simp [read_fields, hb]
      · cases h
        simp [read_fields, hb]
  · simp only [hb, if_false, ite_false, reduceIte] at h
    split at h
    · cases h
      rfl
    · exact (classify_read_fields h).trans rfl

theorem annotate_build_congr {m m2 : Dataset} {base : String} (b0 : Build)
    (h : ∀ k : Key, (lookupD m k).map read_fields = (lookupD m2 k).map read_fields) :
    annotate_build m base b0 = annotate_build m2 base b0 := by
  unfold annotate_build
  dsimp only
  by_cases hb : b0.buildset = base
  · simp only [hb, if_true, eq_self_iff_true, reduceIte]
  · simp only [hb, if_false, ite_false, reduceIte]
    have hK := h (base, b0.sketch_dir, b0.board)
    cases hm1 : lookupD m (base, b0.sketch_dir, b0.board) with
    | none =>
        cases hm2 : lookupD m2 (base, b0.sketch_dir, b0.board) with
        | none => rfl
        | some bb2 =>
            rw [hm1, hm2] at hK
            exact absurd hK (by simp)
    | some bb =>
        cases hm2 : lookupD m2 (base, b0.sketch_dir, b0.board) with
        | none =>
            rw [hm1, hm2] at hK
            exact absurd hK (by simp)
        | some bb2 =>
            rw [hm1, hm2] at hK
            exact classify_congr (by simpa using hK)

theorem annotate_build_nobase {m : Dataset} {base : String} {b0 : Build}
    (hb : b0.buildset ≠ base)
    (hl : lookupD m (base, b0.sketch_dir, b0.board) = none) :
    annotate_build m base b0 =
      .ok ({ b0 with is_base := some "No", delta_status := some "No base" },
           [no_base_warning b0]) := by
  unfold annotate_build
  dsimp only
  simp only [hb, if_false, ite_false, reduceIte, hl]
  rfl

theorem annotate_build_nonbase {m : Dataset} {base : String} {b0 bb : Build}
    (hb : b0.buildset ≠ base)
    (hl : lookupD m (base, b0.sketch_dir, b0.board) = some bb) :
    annotate_build m base b0 =
      classify_with_base { b0 with is_base := some "No" } bb := by
  unfold annotate_build
  dsimp only
  simp only [hb, if_false, ite_false, reduceIte, hl]

theorem delta_fold_char (base : String) (data : Dataset) (ks : List Key) :
    ∀ (m : Dataset) (w : List String) (res : Dataset × List String),
    except_fold (delta_step base) (.ok (m, w)) ks = .ok res →
    (∀ k, (lookupD m k).map read_fields = (lookupD data k).map read_fields) →
    (∀ k ∈ ks, lookupD m k = lookupD data k) →
    ks.Nodup →
    m.map Prod.fst = data.map Prod.fst →
    (∀ k, (lookupD res.1 k).map read_fields = (lookupD data k).map read_fields) ∧
    (∀ k, k ∉ ks → lookupD res.1 k = lookupD m k) ∧
    (∀ x ∈ w, x ∈ res.2) ∧
    (∀ k ∈ ks, ∀ b, lookupD data k = some b →
       ∃ b1 ww, annotate_build data base b = .ok (b1, ww) ∧
         lookupD res.1 k = some b1 ∧ ∀ x ∈ ww, x ∈ res.2) ∧
    res.1.map Prod.fst = data.map Prod.fst := by
  induction ks with
  | nil =>
      intro m w res h hrf hun hnd hkeys
      rw [except_fold_nil] at h
      cases h
      exact ⟨hrf, fun k _ => rfl, fun x hx => hx, fun k hk => absurd hk (by simp),
        hkeys⟩
  | cons k ks ih =>
      intro m w res h hrf hun hnd hkeys
      rw [except_fold_cons] at h
      have hunk : lookupD m k = lookupD data k := hun k (by simp)
      rcases hl : lookupD m k with _ | b
      · rw [delta_step, hl] at h
        have hdk : lookupD data k = none := hunk.symm.trans hl
        obtain ⟨c1, c2, c3, c4, c5⟩ := ih m w res h hrf
          (fun k' hk' => hun k' (List.mem_cons_of_mem _ hk')) hnd.of_cons hkeys
        refine ⟨c1, ?_, c3, ?_, c5⟩
        · intro k0 hk0
          exact c2 k0 (fun hin => hk0 (List.mem_cons_of_mem _ hin))
        · intro k0 hk0 b hb
          rcases List.mem_cons.mp hk0 with hk0 | hk0
          · subst hk0
            rw [hdk] at hb
            exact Option.noConfusion hb
          · exact c4 k0 hk0 b hb
      · have hdb : lookupD data k = some b := hunk.symm.trans hl
        have hcongr := @annotate_build_congr m data base b hrf
        rcases ha : annotate_build data base b with e | r
        · rw [delta_step, hl] at h
          dsimp only at h
          rw [hcongr, ha, except_fold_error] at h
          exact Except.noConfusion h
        · rcases r with ⟨b1, ww⟩
          rw [delta_step, hl] at h
          dsimp only at h
          rw [hcongr, ha] at h
          have hrfb1 : read_fields b1 = read_fields b :=
            annotate_build_read_fields (m := data) ha
          have hkmem : k ∈ m.map Prod.fst := mem_keys_of_lookupD hl
          have hm1keys : (dict_insert m k b1).map Prod.fst = data.map Prod.fst := by
            rw [dict_insert_map_fst_of_mem _ hkmem, hkeys]
          have hm1rf : ∀ k0, (lookupD (dict_insert m k b1) k0).map read_fields
              = (lookupD data k0).map read_fields := by
            intro k0
            by_cases hk0 : k0 = k
            · subst hk0
              rw [lookupD_dict_insert_self, hdb]
              simp [hrfb1]
            · rw [lookupD_dict_insert_ne _ _ (fun he => hk0 he), hrf k0]
          have hm1un : ∀ k' ∈ ks, lookupD (dict_insert m k b1) k' = lookupD data k' := by
            intro k' hk'
            have hne : k' ≠ k := by
              intro he
              subst he
              exact (List.nodup_cons.mp hnd).1 hk'
            rw [lookupD_dict_insert_ne _ _ hne]
            exact hun k' (List.mem_cons_of_mem _ hk')
          obtain ⟨c1, c2, c3, c4, c5⟩ := ih (dict_insert m k b1) (w ++ ww) res h
            hm1rf hm1un hnd.of_cons hm1keys
          refine ⟨c1, ?_, ?_, ?_, c5⟩
          · intro k0 hk0
            have hne : k0 ≠ k := fun he => hk0 (he ▸ List.mem_cons_self _ _)
            rw [c2 k0 (fun hin => hk0 (List.mem_cons_of_mem _ hin))]
            exact lookupD_dict_insert_ne _ _ hne
          · intro x hx
            exact c3 x (List.mem_append.mpr (Or.inl hx))
          · intro k0 hk0 b' hb'
            rcases List.mem_cons.mp hk0 with hk0 | hk0
            · subst hk0
              rw [hdb] at hb'
              obtain rfl : b = b' := Option.some.inj hb'
              refine ⟨b1, ww, ha, ?_, ?_⟩
              · rw [c2 k0 (List.nodup_cons.mp hnd).1]
                exact lookupD_dict_insert_self _ _ _
              · intro x hx
                exact c3 x (List.mem_append.mpr (Or.inr hx))
            · exact c4 k0 hk0 b' hb'

theorem add_delta_info_char {data : Dataset} {base : String}
    {res : Dataset × List String}
    (hnd : (data.map Prod.fst).Nodup)
    (h : add_delta_info data base = .ok res) :
    (∀ k b, lookupD data k = some b →
       ∃ b1 ww, annotate_build data base b = .ok (b1, ww) ∧
         lookupD res.1 k = some b1 ∧ ∀ x ∈ ww, x ∈ res.2) ∧
    res.1.map Prod.fst = data.map Prod.fst ∧
    (∀ k, (lookupD res.1 k).map read_fields = (lookupD data k).map read_fields) := by
  unfold add_delta_info at h
  obtain ⟨c1, _, _, c4, c5⟩ := delta_fold_char base data (data.map Prod.fst)
    data [] res h (fun k => rfl) (fun k _ => rfl) hnd rfl
  exact ⟨fun k b hb => c4 k (mem_keys_of_lookupD hb) b hb, c5, c1⟩

theorem lookupD_base_none {data : Dataset} {base : String}
    (hwf : ∀ p ∈ data, p.1 = (p.2.buildset, p.2.sketch_dir, p.2.board))
    (hnb : ∀ p ∈ data, p.2.buildset ≠ base) (x y : String) :
    lookupD data (base, x, y) = none := by
  rw [lookupD_eq_none_iff]
  intro hmem
  rcases List.mem_map.mp hmem with ⟨p, hp, he⟩
  have h1 := hwf p hp
  rw [h1] at he
  have : p.2.buildset = base := congrArg Prod.fst he
  exact hnb p hp this

theorem delta_fold_nobase_ok {data : Dataset} {base : String}
    (hwf : ∀ p ∈ data, p.1 = (p.2.buildset, p.2.sketch_dir, p.2.board))
    (hnb : ∀ p ∈ data, p.2.buildset ≠ base) (ks : List Key) :
    ∀ (m : Dataset) (w : List String),
    (∀ k, (lookupD m k).map read_fields = (lookupD data k).map read_fields) →
    m.map Prod.fst = data.map Prod.fst →
    ∃ res, except_fold (delta_step base) (.ok (m, w)) ks = .ok res := by
  induction ks with
  | nil =>
      intro m w _ _
      exact ⟨(m, w), rfl⟩
  | cons k ks ih =>
      intro m w hrf hkeys
      rw [except_fold_cons]
      rcases hl : lookupD m k with _ | b
      · rw [delta_step, hl]
        exact ih m w hrf hkeys
      · have hrfk := hrf k
        rw [hl] at hrfk
        rcases hd : lookupD data k with _ | b2
        · rw [hd] at hrfk
          exact absurd hrfk (by simp)
        · rw [hd] at hrfk
          simp only [Option.map_some'] at hrfk
          have hrfb : read_fields b = read_fields b2 := Option.some.inj hrfk
          obtain ⟨hbs, hsd, hbo, _, _, _, _, _, _⟩ := read_fields_eq_iff.mp hrfb
          have hb2 : (k, b2) ∈ data := mem_of_lookupD hd
          have hbase : b.buildset ≠ base := by
            rw [hbs]
            exact hnb _ hb2
          have hlb : lookupD m (base, b.sketch_dir, b.board) = none := by
            rw [lookupD_eq_none_iff, hkeys, ← lookupD_eq_none_iff]
            exact lookupD_base_none hwf hnb _ _
          rw [delta_step, hl]
          dsimp only
          rw [annotate_build_nobase hbase hlb]
          refine ih (dict_insert m k _) (w ++ [no_base_warning b]) ?_ ?_
          · intro k0
            by_cases hk0 : k0 = k
            · subst hk0
              rw [lookupD_dict_insert_self, hd]
              simp [read_fields] at hrfb ⊢
              exact hrfb
            · rw [lookupD_dict_insert_ne _ _ (fun he => hk0 he)]
              exact hrf k0
          · rw [dict_insert_map_fst_of_mem _ (mem_keys_of_lookupD hl)]
            exact hkeys

theorem add_delta_info_nobase_ok {data : Dataset} {base : String}
    (hwf : ∀ p ∈ data, p.1 = (p.2.buildset, p.2.sketch_dir, p.2.board))
    (hnb : ∀ p ∈ data, p.2.buildset ≠ base) :
    ∃ res, add_delta_info data base = .ok res := by
  unfold add_delta_info
  exact delta_fold_nobase_ok hwf hnb (data.map Prod.fst) data [] (fun k => rfl) rfl

/-! ## Renderer: ordering lemmas -/

theorem str_lt_b_trichotomy : ∀ x y : List Char,
    str_lt_b x y = true ∨ x = y ∨ str_lt_b y x = true
  | [], [] => Or.inr (Or.inl rfl)
  | [], _ :: _ => Or.inl rfl
  | _ :: _, [] => Or.inr (Or.inr rfl)
  | a :: as, b :: bs => by
      rcases lt_trichotomy a b with h | h | h
      · left
        simp [str_lt_b, h]
      · subst h
        rcases str_lt_b_trichotomy as bs with ih | ih | ih
        · left
          simp [str_lt_b, lt_irrefl, ih]
        · right; left
          rw [ih]
        · right; right
          simp [str_lt_b, lt_irrefl, ih]
      · right; right
        simp [str_lt_b, h]

theorem str_lt_b_nil : ∀ x : List Char, str_lt_b x [] = false
  | [] => rfl
  | _ :: _ => rfl

theorem str_lt_b_trans : ∀ x y z : List Char,
    str_lt_b x y = true → str_lt_b y z = true → str_lt_b x z = true
  | x, [], _ => by
      intro h1 _
      rw [str_lt_b_nil x] at h1
      exact Bool.noConfusion h1
  | [], _ :: _, [] => by
      intro _ h2
      exact absurd h2 (by simp [str_lt_b])
  | [], _ :: _, _ :: _ => by
      intro _ _
      rfl
  | _ :: _, _ :: _, [] => by
      intro _ h2
      exact absurd h2 (by simp [str_lt_b])
  | a :: as, b :: bs, c :: cs => by
      intro h1 h2
      rw [str_lt_b] at h1 h2 ⊢
      by_cases hab : a < b
      · by_cases hbc : b < c
        · simp [lt_trans hab hbc]
        · by_cases hbc2 : b = c
          · subst hbc2
            simp [hab]
          · simp [hbc, hbc2] at h2
      · by_cases hab2 : a = b
        · subst hab2
          simp only [lt_irrefl, if_false, ite_false, eq_self_iff_true, if_true,
            ite_true, reduceIte] at h1
          by_cases hbc : a < c
          · simp [hbc]
          · by_cases hbc2 : a = c
            · subst hbc2
              simp only [lt_irrefl, if_false, ite_false, eq_self_iff_true,
                if_true, ite_true, reduceIte] at h2 ⊢
              exact str_lt_b_trans as bs cs h1 h2
            · simp [hbc, hbc2] at h2
        · simp [hab, hab2] at h1

theorem str_lt_trans {a b c : String} (h1 : str_lt a b) (h2 : str_lt b c) :
    str_lt a c :=
  str_lt_b_trans a.data b.data c.data h1 h2

theorem str_lt_total {a b : String} (h : ¬str_lt a b) (hne : a ≠ b) :
    str_lt b a := by
  rcases str_lt_b_trichotomy a.data b.data with h2 | h2 | h2
  · exact absurd h2 h
  · exfalso
    apply hne
    rcases a with ⟨da⟩
    rcases b with ⟨db⟩
    cases h2
    rfl
  · exact h2

theorem key_le_total (a b : Key) : key_le a b ∨ key_le b a := by
  unfold key_le str_le
  by_cases h1 : str_lt a.1 b.1
  · exact Or.inl (Or.inl h1)
  · by_cases he1 : a.1 = b.1
    · by_cases h2 : str_lt a.2.1 b.2.1
      · exact Or.inl (Or.inr ⟨he1, Or.inl h2⟩)
      · by_cases he2 : a.2.1 = b.2.1
        · by_cases h3 : str_lt a.2.2 b.2.2
          · exact Or.inl (Or.inr ⟨he1, Or.inr ⟨he2, Or.inl h3⟩⟩)
          · by_cases he3 : a.2.2 = b.2.2
            · exact Or.inl (Or.inr ⟨he1, Or.inr ⟨he2, Or.inr he3⟩⟩)
            · exact Or.inr (Or.inr ⟨he1.symm, Or.inr ⟨he2.symm,
                Or.inl (str_lt_total h3 he3)⟩⟩)
        · exact Or.inr (Or.inr ⟨he1.symm, Or.inl (str_lt_total h2 he2)⟩)
    · exact Or.inr (Or.inl (str_lt_total h1 he1))

theorem key_le_trans {a b c : Key} (h1 : key_le a b) (h2 : key_le b c) :
    key_le a c := by
  unfold key_le str_le at h1 h2 ⊢
  rcases h1 with h1 | ⟨e1, h1⟩
  · rcases h2 with h2 | ⟨e2, h2⟩
    · exact Or.inl (str_lt_trans h1 h2)
    · exact Or.inl (e2 ▸ h1)
  · rcases h2 with h2 | ⟨e2, h2⟩
    · exact Or.inl (e1 ▸ h2)
    · refine Or.inr ⟨e1.trans e2, ?_⟩
      rcases h1 with h1 | ⟨f1, h1⟩
      · rcases h2 with h2 | ⟨f2, h2⟩
        · exact Or.inl (str_lt_trans h1 h2)
        · exact Or.inl (f2 ▸ h1)
      · rcases h2 with h2 | ⟨f2, h2⟩
        · exact Or.inl (f1 ▸ h2)
        · refine Or.inr ⟨f1.trans f2, ?_⟩
          rcases h1 with h1 | h1
          · rcases h2 with h2 | h2
            · exact Or.inl (str_lt_trans h1 h2)
            · exact Or.inl (h2 ▸ h1)
          · rcases h2 with h2 | h2
            · exact Or.inl (h1 ▸ h2)
            · exact Or.inr (h1.trans h2)

theorem key_lt_trans {a b c : Key} (h1 : key_lt a b) (h2 : key_lt b c) :
    key_lt a c := by
  unfold key_lt at h1 h2 ⊢
  rcases h1 with h1 | ⟨e1, h1⟩
  · rcases h2 with h2 | ⟨e2, h2⟩
    · exact Or.inl (str_lt_trans h1 h2)
    · exact Or.inl (e2 ▸ h1)
  · rcases h2 with h2 | ⟨e2, h2⟩
    · exact Or.inl (e1 ▸ h2)
    · refine Or.inr ⟨e1.trans e2, ?_⟩
      rcases h1 with h1 | ⟨f1, h1⟩
      · rcases h2 with h2 | ⟨f2, h2⟩
        · exact Or.inl (str_lt_trans h1 h2)
        · exact Or.inl (f2 ▸ h1)
      · rcases h2 with h2 | ⟨f2, h2⟩
        · exact Or.inl (f1 ▸ h2)
        · exact Or.inr ⟨f1.trans f2, str_lt_trans h1 h2⟩

theorem key_lt_of_key_le_of_ne {a b : Key} (h : key_le a b) (hne : a ≠ b) :
    key_lt a b := by
  unfold key_le str_le at h
  unfold key_lt
  rcases h with h | ⟨e1, h⟩
  · exact Or.inl h
  · refine Or.inr ⟨e1, ?_⟩
    rcases h with h | ⟨f1, h⟩
    · exact Or.inl h
    · refine Or.inr ⟨f1, ?_⟩
      rcases h with h | h
      · exact h
      · exfalso
        apply hne
        rcases a with ⟨a1, a2, a3⟩
        rcases b with ⟨b1, b2, b3⟩
        simp_all

theorem sort_data_sorted (d : Dataset) :
    List.Sorted (fun p q : Key × Build => key_le p.1 q.1) (sort_data d) := by
  haveI : IsTotal (Key × Build) (fun p q => key_le p.1 q.1) :=
    ⟨fun p q => key_le_total p.1 q.1⟩
  haveI : IsTrans (Key × Build) (fun p q => key_le p.1 q.1) :=
    ⟨fun _ _ _ h1 h2 => key_le_trans h1 h2⟩
  exact List.sorted_insertionSort _ _

theorem sort_data_perm (d : Dataset) : List.Perm (sort_data d) d :=
  List.perm_insertionSort _ _

theorem sort_data_pairwise_lt {d : Dataset} (hnd : (d.map Prod.fst).Nodup) :
    List.Pairwise (fun p q : Key × Build => key_lt p.1 q.1) (sort_data d) := by
  have hs : List.Pairwise (fun p q : Key × Build => key_le p.1 q.1) (sort_data d) :=
    sort_data_sorted d
  have hperm := sort_data_perm d
  have hnd2 : ((sort_data d).map Prod.fst).Nodup :=
    ((hperm.map Prod.fst).nodup_iff).mpr hnd
  have hne : List.Pairwise (fun p q : Key × Build => p.1 ≠ q.1) (sort_data d) :=
    (List.pairwise_map).mp hnd2
  exact (hs.and hne).imp (fun h => key_lt_of_key_le_of_ne h.1 h.2)

theorem build_report_row_key (b : Build) (bs : Option String) :
    row_key (build_report_row (build_get b) bs) =
      (b.buildset, b.sketch_dir, b.board) := by
  cases htr : truthy bs <;>
    simp [build_report_row, htr, report_attrs, delta_attrs, build_get, row_key]

theorem build_report_row_len_of_not_truthy (get : String → Option String)
    {bs : Option String} (h : truthy bs = false) :
    (build_report_row get bs).length = 6 := by
  simp [build_report_row, h, report_attrs]

theorem report_rows_chain {data : Dataset} (bs : Option String)
    (hwf : ∀ p ∈ data, p.1 = (p.2.buildset, p.2.sketch_dir, p.2.board))
    (hnd : (data.map Prod.fst).Nodup) :
    List.Chain' (fun r1 r2 => key_lt (row_key r1) (row_key r2))
      (report_rows data bs).tail := by
  have hp := sort_data_pairwise_lt hnd
  have hrows : (report_rows data bs).tail =
      (sort_data data).map (fun kb => build_report_row (build_get kb.2) bs) := rfl
  rw [hrows]
  apply List.Pairwise.chain'
  rw [List.pairwise_map]
  refine hp.imp_of_mem ?_
  intro p q hpm hqm h
  have hwp : p.1 = (p.2.buildset, p.2.sketch_dir, p.2.board) :=
    hwf p ((sort_data_perm data).mem_iff.mp hpm)
  have hwq : q.1 = (q.2.buildset, q.2.sketch_dir, q.2.board) :=
    hwf q ((sort_data_perm data).mem_iff.mp hqm)
  rw [build_report_row_key, build_report_row_key, ← hwp, ← hwq]
  exact h

/-! ## Scanner characterization -/

theorem forest_has_of_subtree_forest : ∀ (f : Forest) (n : String)
    (q : List String) (u : DirTree),
    subtree_forest f n q = some u → forest_has f n = true
  | .nil, n, q, u => by
      intro h
      rw [subtree_forest] at h
      exact Option.noConfusion h
  | .cons name t rest, n, q, u => by
      intro h
      by_cases hn : name = n
      · rw [forest_has]
        simp [hn]
      · rw [subtree_forest, if_neg hn] at h
        rw [forest_has]
        simp [hn, forest_has_of_subtree_forest rest n q u h]

mutual
theorem find_builds_iff : ∀ (root p : List String) (r : RawBuild) (t : DirTree),
    wf_tree t = true →
    ((p, r) ∈ find_builds root t ↔
      ∃ q, p = root ++ q ∧
        (∃ u, subtree t q = some u ∧ u.markerOf = some r) ∧
        (∀ q1 q2, q = q1 ++ q2 → q2 ≠ [] →
          ∃ u1, subtree t q1 = some u1 ∧ u1.markerOf = none))
  | root, p, r, .node (some r0) subs => by
      intro _
      rw [find_builds]
      constructor
      · intro h
        rcases List.mem_singleton.mp h with he
        obtain ⟨hp, hr⟩ := Prod.mk.injEq .. ▸ he
        refine ⟨[], by simpa using hp, ⟨.node (some r0) subs, rfl, by rw [hr]; rfl⟩, ?_⟩
        intro q1 q2 hq hne
        exact absurd (List.append_eq_nil.mp hq.symm).2 hne
      · rintro ⟨q, hp, ⟨u, hu, hm⟩, hanc⟩
        cases q with
        | nil =>
            rw [subtree] at hu
            cases hu
            rw [DirTree.markerOf] at hm
            cases hm
            simp [hp]
        | cons n q' =>
            obtain ⟨u1, h1, hm1⟩ := hanc [] (n :: q') rfl (by simp)
            rw [subtree] at h1
            cases h1
            rw [DirTree.markerOf] at hm1
            exact Option.noConfusion hm1
  | root, p, r, .node none subs => by
      intro hwf
      rw [find_builds]
      rw [find_builds_forest_iff root p r subs (by rw [wf_tree] at hwf; exact hwf)]
      constructor
      · rintro ⟨n, q, hp, ⟨u, hu, hm⟩, hanc⟩
        refine ⟨n :: q, hp, ⟨u, by rw [subtree]; exact hu, hm⟩, ?_⟩
        intro q1 q2 hq hne
        cases q1 with
        | nil => exact ⟨.node none subs, rfl, rfl⟩
        | cons n1 q1' =>
            rw [List.cons_append] at hq
            obtain ⟨hn1, hq'⟩ : n = n1 ∧ q = q1' ++ q2 := by
              have := List.cons.injEq .. ▸ hq
              exact ⟨this.1, this.2⟩
            obtain ⟨u1, h1, hm1⟩ := hanc q1' q2 hq' hne
            subst hn1
            exact ⟨u1, by rw [subtree]; exact h1, hm1⟩
      · rintro ⟨q, hp, ⟨u, hu, hm⟩, hanc⟩
        cases q with
        | nil =>
            rw [subtree] at hu
            cases hu
            rw [DirTree.markerOf] at hm
            exact Option.noConfusion hm
        | cons n q' =>
            rw [subtree] at hu
            refine ⟨n, q', hp, ⟨u, hu, hm⟩, ?_⟩
            intro q1 q2 hq hne
            obtain ⟨u1, h1, hm1⟩ := hanc (n :: q1) q2 (by rw [hq, List.cons_append]) hne
            rw [subtree] at h1
            exact ⟨u1, h1, hm1⟩

theorem find_builds_forest_iff : ∀ (root p : List String) (r : RawBuild) (f : Forest),
    wf_forest f = true →
    ((p, r) ∈ find_builds_forest root f ↔
      ∃ n q, p = root ++ n :: q ∧
        (∃ u, subtree_forest f n q = some u ∧ u.markerOf = some r) ∧
        (∀ q1 q2, q = q1 ++ q2 → q2 ≠ [] →
          ∃ u1, subtree_forest f n q1 = some u1 ∧ u1.markerOf = none))
  | root, p, r, .nil => by
      intro _
      rw [find_builds_forest]
      constructor
      · intro h
        exact absurd h (List.not_mem_nil _)
      · rintro ⟨n, q, hp, ⟨u, hu, hm⟩, hanc⟩
        rw [subtree_forest] at hu
        exact Option.noConfusion hu
  | root, p, r, .cons name t rest => by
      intro hwf
      rw [wf_forest] at hwf
      simp only [Bool.and_eq_true, Bool.not_eq_true'] at hwf
      obtain ⟨⟨hdup, hwt⟩, hwr⟩ := hwf
      rw [find_builds_forest, List.mem_append]
      constructor
      · intro h
        rcases h with h | h
        · rw [find_builds_iff (root ++ [name]) p r t hwt] at h
          obtain ⟨q, hp, ⟨u, hu, hm⟩, hanc⟩ := h
          refine ⟨name, q, by rw [hp, List.append_assoc]; rfl,
            ⟨u, by rw [subtree_forest, if_pos rfl]; exact hu, hm⟩, ?_⟩
          intro q1 q2 hq hne
          obtain ⟨u1, h1, hm1⟩ := hanc q1 q2 hq hne
          exact ⟨u1, by rw [subtree_forest, if_pos rfl]; exact h1, hm1⟩
        · rw [find_builds_forest_iff root p r rest hwr] at h
          obtain ⟨n, q, hp, ⟨u, hu, hm⟩, hanc⟩ := h
          have hn : name ≠ n := by
            intro he
            rw [he] at hdup
            rw [forest_has_of_subtree_forest rest n q u hu] at hdup
            exact Bool.noConfusion hdup
          refine ⟨n, q, hp,
            ⟨u, by rw [subtree_forest, if_neg hn]; exact hu, hm⟩, ?_⟩
          intro q1 q2 hq hne
          obtain ⟨u1, h1, hm1⟩ := hanc q1 q2 hq hne
          exact ⟨u1, by rw [subtree_forest, if_neg hn]; exact h1, hm1⟩
      · rintro ⟨n, q, hp, ⟨u, hu, hm⟩, hanc⟩
        by_cases hn : name = n
        · left
          subst hn
          rw [subtree_forest, if_pos rfl] at hu
          rw [find_builds_iff (root ++ [name]) p r t hwt]
          refine ⟨q, by rw [hp, List.append_assoc]; rfl, ⟨u, hu, hm⟩, ?_⟩
          intro q1 q2 hq hne
          obtain ⟨u1, h1, hm1⟩ := hanc q1 q2 hq hne
          rw [subtree_forest, if_pos rfl] at h1
          exact ⟨u1, h1, hm1⟩
        · right
          rw [subtree_forest, if_neg hn] at hu
          rw [find_builds_forest_iff root p r rest hwr]
          refine ⟨n, q, hp, ⟨u, hu, hm⟩, ?_⟩
          intro q1 q2 hq hne
          obtain ⟨u1, h1, hm1⟩ := hanc q1 q2 hq hne
          rw [subtree_forest, if_neg hn] at h1
          exact ⟨u1, h1, hm1⟩
end

/-! ## Delta engine: classification specifications -/

theorem classify_spec {b bb b1 : Build} {w : List String}
    (h : classify_with_base b bb = .ok (b1, w)) :
    ((b.status = some "OK" ∧ bb.status = some "OK") →
       ∃ h1 h2 p1 p2 d1 d2,
         b.hash = some h1 ∧ bb.hash = some h2 ∧
         b.program_size = some p1 ∧ bb.program_size = some p2 ∧
         b.data_size = some d1 ∧ bb.data_size = some d2 ∧
         b1 = { b with
                delta_status := some (if h1 = h2 then "Identical" else "Modified")
                delta_program_size := some (p1 - p2)
                delta_data_size := some (d1 - d2) } ∧ w = []) ∧
    (¬(b.status = some "OK" ∧ bb.status = some "OK") →
       b1 = { b with
              delta_status := some (if b.status = some "OK" then "Fixed" else if bb.status = some "OK" then "Broken" else "Still broken") } ∧ w = []) := by
  unfold classify_with_base at h
  split at h
  · exact Except.noConfusion h
  · exact Except.noConfusion h
  · rename_i s sb hs hsb
    split at h
    · rename_i hok
      split at h
      · exact Except.noConfusion h
      · exact Except.noConfusion h
      · rename_i h1v h2v hh1 hh2
        dsimp only at h
        split at h
        · rename_i p1 p2 d1 d2 hp1 hp2 hd1 hd2
          cases h
          constructor
          · intro _
            exact ⟨h1v, h2v, p1, p2, d1, d2, hh1, hh2, hp1, hp2, hd1, hd2, rfl, rfl⟩
          · intro hcon
            exact absurd ⟨by rw [hs, hok.1], by rw [hsb, hok.2]⟩ hcon
        · exact Except.noConfusion h
    · rename_i hok
      cases h
      constructor
      · intro hcon
        refine absurd ?_ hok
        constructor
        · exact Option.some.inj (hs ▸ hcon.1)
        · exact Option.some.inj (hsb ▸ hcon.2)
      · intro _
        refine ⟨?_, rfl⟩
        simp only [hs, hsb, Option.some.injEq]

theorem classify_is_base {b bb b1 : Build} {w : List String}
    (h : classify_with_base b bb = .ok (b1, w)) :
    b1.is_base = b.is_base := by
  unfold classify_with_base at h
  split at h
  · exact Except.noConfusion h
  · exact Except.noConfusion h
  · split at h
    · split at h
      · exact Except.noConfusion h
      · exact Except.noConfusion h
      · dsimp only at h
        split at h
        · cases h
          rfl
        · exact Except.noConfusion h
    · cases h
      rfl

theorem annotate_is_base {m : Dataset} {base : String} {b0 b1 : Build}
    {w : List String}
    (h : annotate_build m base b0 = .ok (b1, w)) :
    b1.is_base.isSome := by
  unfold annotate_build at h
  dsimp only at h
  by_cases hb : b0.buildset = base
  · simp only [hb, if_true, eq_self_iff_true, reduceIte] at h
    split at h
    · exact Except.noConfusion h
    · split at h
      · cases h
        rfl
      · cases h
        rfl
  · simp only [hb, if_false, ite_false, reduceIte] at h
    split at h
    · cases h
      rfl
    · rw [classify_is_base h]
      rfl

theorem run_delta_spec {data : Dataset} {bs : Option String}
    {res : Dataset × List String}
    (hnd : (data.map Prod.fst).Nodup)
    (h : run_delta data bs = .ok res) :
    res.1.map Prod.fst = data.map Prod.fst ∧
    (∀ k, (lookupD res.1 k).map read_fields = (lookupD data k).map read_fields) := by
  unfold run_delta at h
  match bs with
  | none =>
      cases h
      exact ⟨rfl, fun k => rfl⟩
  | some s =>
      dsimp only at h
      by_cases he : s = ""
      · rw [if_pos he] at h
        cases h
        exact ⟨rfl, fun k => rfl⟩
      · rw [if_neg he] at h
        obtain ⟨_, c2, c3⟩ := add_delta_info_char hnd h
        exact ⟨c2, c3⟩

theorem run_delta_wf {data : Dataset} {bs : Option String}
    {res : Dataset × List String}
    (hwf : ∀ p ∈ data, p.1 = (p.2.buildset, p.2.sketch_dir, p.2.board))
    (hnd : (data.map Prod.fst).Nodup)
    (h : run_delta data bs = .ok res) :
    (∀ p ∈ res.1, p.1 = (p.2.buildset, p.2.sketch_dir, p.2.board)) ∧
      (res.1.map Prod.fst).Nodup := by
  obtain ⟨hkeys, hrf⟩ := run_delta_spec hnd h
  have hnd1 : (res.1.map Prod.fst).Nodup := by rw [hkeys]; exact hnd
  refine ⟨?_, hnd1⟩
  intro p hp
  have hl : lookupD res.1 p.1 = some p.2 := lookupD_of_mem hnd1 hp
  have hk := hrf p.1
  rw [hl] at hk
  rcases hd : lookupD data p.1 with _ | b
  · rw [hd] at hk
    exact absurd hk (by simp)
  · rw [hd] at hk
    simp only [Option.map_some'] at hk
    obtain ⟨h1, h2, h3, _, _, _, _, _, _⟩ :=
      read_fields_eq_iff.mp (Option.some.inj hk)
    have hwfb := hwf _ (mem_of_lookupD hd)
    rw [h1, h2, h3]
    exact hwfb

/-! ## Claims -/

/-- C1 counterexample: for a record with `exit_code == 0`, a measurement
whose tool output lacks the expected patterns (a measurement failure per
the claim) leaves the record with status `OK`, not `Failed to get size`;
and a missing hex artifact aborts the whole report run instead of being
recovered. -/
theorem claim_C1_counterexample :
    process_build cx_env_empty ["r"] cx_raw0 =
      .ok { exit_code := 0, sketch_dir := "blink", sketch_name := "Blink",
            board := "uno", buildset := "base", status := some "OK",
            program_size := none, data_size := none, hash := some "h0",
            delta_status := none, delta_program_size := none,
            delta_data_size := none, is_base := none } ∧
    create_report_data cx_env_hexmiss ["r"] cx_tree0 = .error .ioError :=
  ⟨rfl, rfl⟩

/-- C1 (amended): for every scanned record with `exit_code == 0`, if the
external size tool exits nonzero (`CalledProcessError`), the record's
status is set to `Failed to get size`, no size or hash fields are
attached (the result record is the raw record plus only that status),
and processing continues: the step returns normally instead of
propagating an exception.  Pattern-not-found and a missing hex artifact
are not recovered this way. -/
theorem claim_C1_amended (env : Env) (path : List String) (raw : RawBuild)
    (h0 : raw.exit_code = 0)
    (hfail : env.size_tool (elf_path path (to_build raw)) = .error ()) :
    process_build env path raw =
      .ok { to_build raw with status := some "Failed to get size" } := by
  have hext : add_extra_info env path (to_build raw) = .error .calledProcessError := by
    unfold add_extra_info
    rw [hfail]
  unfold process_build
  dsimp only
  rw [if_neg (show ¬((to_build raw).exit_code ≠ 0) from by simp [to_build, h0])]
  rw [if_pos (show (to_build raw).status = none from rfl)]
  rw [hext]
  rfl

/-- C1 witness. -/
theorem claim_C1_witness :
    cx_raw0.exit_code = 0 ∧
    cx_env_fail.size_tool (elf_path ["r"] (to_build cx_raw0)) = .error () ∧
    process_build cx_env_fail ["r"] cx_raw0 =
      .ok { to_build cx_raw0 with status := some "Failed to get size" } :=
  ⟨rfl, rfl, claim_C1_amended cx_env_fail ["r"] cx_raw0 rfl rfl⟩

/-- C2 counterexample: a record whose tool output lacked the size
patterns ends up in the dataset with `status == OK`, `content_hash`
present, but `program_size` and `data_size` absent — so presence of the
size fields is not equivalent to `status == OK`. -/
theorem claim_C2_counterexample :
    create_report_data cx_env_empty ["r"] cx_tree0 =
      .ok ([(("base", "blink", "uno"),
             { exit_code := 0, sketch_dir := "blink", sketch_name := "Blink",
               board := "uno", buildset := "base", status := some "OK",
               program_size := none, data_size := none, hash := some "h0",
               delta_status := none, delta_program_size := none,
               delta_data_size := none, is_base := none })], {"base"}) :=
  rfl

/-- C2 (amended): for every record in the built dataset, `content_hash`
is present if and only if `status == OK`, and `program_size`/`data_size`
are present only if `status == OK` (they can be absent on an `OK` record
when the tool output lacked the pattern lines). -/
theorem claim_C2_amended {env : Env} {root : List String} {tree : DirTree}
    {data : Dataset} {sets : Finset String}
    (h : create_report_data env root tree = .ok (data, sets)) :
    ∀ p ∈ data, (p.2.hash.isSome ↔ p.2.status = some "OK") ∧
      (p.2.program_size.isSome → p.2.status = some "OK") ∧
      (p.2.data_size.isSome → p.2.status = some "OK") := by
  intro p hp
  obtain ⟨hmem, _⟩ := create_report_data_spec h
  obtain ⟨_, hg⟩ := hmem p hp
  exact ⟨hg.2.1, hg.2.2.1, hg.2.2.2.1⟩

/-- C2 witness. -/
theorem claim_C2_witness :
    create_report_data cx_env_good ["r"] cx_tree0 =
      .ok ([(("base", "blink", "uno"),
             { exit_code := 0, sketch_dir := "blink", sketch_name := "Blink",
               board := "uno", buildset := "base", status := some "OK",
               program_size := some 1000, data_size := some 200,
               hash := some "h0", delta_status := none,
               delta_program_size := none, delta_data_size := none,
               is_base := none })], {"base"}) ∧
    ∀ p ∈ [((("base", "blink", "uno") : Key),
            ({ exit_code := 0, sketch_dir := "blink", sketch_name := "Blink",
               board := "uno", buildset := "base", status := some "OK",
               program_size := some 1000, data_size := some 200,
               hash := some "h0", delta_status := none,
               delta_program_size := none, delta_data_size := none,
               is_base := none } : Build))],
      (p.2.hash.isSome ↔ p.2.status = some "OK") ∧
      (p.2.program_size.isSome → p.2.status = some "OK") ∧
      (p.2.data_size.isSome → p.2.status = some "OK") := by
  have h : create_report_data cx_env_good ["r"] cx_tree0 =
      .ok ([(("base", "blink", "uno"),
             { exit_code := 0, sketch_dir := "blink", sketch_name := "Blink",
               board := "uno", buildset := "base", status := some "OK",
               program_size := some 1000, data_size := some 200,
               hash := some "h0", delta_status := none,
               delta_program_size := none, delta_data_size := none,
               is_base := none })], {"base"}) := by rfl
  exact ⟨h, claim_C2_amended h⟩

/-- C9: for every record in the built dataset, `status == OK` implies the
`content_hash` field is present, even when `program_size` or `data_size`
are absent: hashing runs only after a successful tool invocation, and a
failure of the hashing step is never recovered into the dataset. -/
theorem claim_C9 {env : Env} {root : List String} {tree : DirTree}
    {data : Dataset} {sets : Finset String}
    (h : create_report_data env root tree = .ok (data, sets)) :
    ∀ p ∈ data, p.2.status = some "OK" → p.2.hash.isSome := by
  intro p hp hok
  obtain ⟨hmem, _⟩ := create_report_data_spec h
  obtain ⟨_, hg⟩ := hmem p hp
  exact hg.2.1.mpr hok

/-- C9 witness: an `OK` record whose size patterns were missing still has
its hash. -/
theorem claim_C9_witness :
    create_report_data cx_env_empty ["r"] cx_tree0 =
      .ok ([(("base", "blink", "uno"),
             { exit_code := 0, sketch_dir := "blink", sketch_name := "Blink",
               board := "uno", buildset := "base", status := some "OK",
               program_size := none, data_size := none, hash := some "h0",
               delta_status := none, delta_program_size := none,
               delta_data_size := none, is_base := none })], {"base"}) ∧
    ∀ p ∈ [((("base", "blink", "uno") : Key),
            ({ exit_code := 0, sketch_dir := "blink", sketch_name := "Blink",
               board := "uno", buildset := "base", status := some "OK",
               program_size := none, data_size := none, hash := some "h0",
               delta_status := none, delta_program_size := none,
               delta_data_size := none, is_base := none } : Build))],
      p.2.status = some "OK" → p.2.hash.isSome := by
  have h : create_report_data cx_env_empty ["r"] cx_tree0 =
      .ok ([(("base", "blink", "uno"),
             { exit_code := 0, sketch_dir := "blink", sketch_name := "Blink",
               board := "uno", buildset := "base", status := some "OK",
               program_size := none, data_size := none, hash := some "h0",
               delta_status := none, delta_program_size := none,
               delta_data_size := none, is_base := none })], {"base"}) := by rfl
  exact ⟨h, claim_C9 h⟩

/-- C8 counterexample: in a tree whose root is itself a completed record
directory containing another completed record directory, the scanner
yields only the root: the nested directory contains the marker file but
is never yielded, so the scanner does not yield exactly the directories
containing the marker. -/
theorem claim_C8_counterexample :
    find_builds ["r"] cx_tree_nested = [(["r"], cx_raw0)] ∧
    subtree cx_tree_nested ["sub"] = some (.node (some cx_raw_next) .nil) ∧
    (DirTree.node (some cx_raw_next) .nil).markerOf = some cx_raw_next ∧
    ["r", "sub"] ∉ (find_builds ["r"] cx_tree_nested).map Prod.fst := by
  refine ⟨rfl, rfl, rfl, ?_⟩
  decide

/-- C8 (amended): on a well-formed tree (distinct sibling names) the
scanner yields exactly the marker directories none of whose proper
ancestors below the root holds a marker: a pair is yielded iff its path
extends the root by a relative path `q` whose directory holds the parsed
marker while every proper prefix of `q` leads to a markerless directory.
Consequently it never descends into a yielded directory, traverses
markerless directories normally, and a markerless directory with no
subdirectories is not yielded and is no error. -/
theorem claim_C8_amended (root p : List String) (r : RawBuild) (t : DirTree)
    (hwf : wf_tree t = true) :
    ((p, r) ∈ find_builds root t ↔
      ∃ q, p = root ++ q ∧
        (∃ u, subtree t q = some u ∧ u.markerOf = some r) ∧
        (∀ q1 q2, q = q1 ++ q2 → q2 ≠ [] →
          ∃ u1, subtree t q1 = some u1 ∧ u1.markerOf = none)) ∧
    find_builds root (DirTree.node none .nil) = [] :=
  ⟨find_builds_iff root p r t hwf, rfl⟩

/-- C8 witness. -/
theorem claim_C8_witness :
    wf_tree cx_tree_nested = true ∧
    (((["r", "sub"], cx_raw_next) ∈ find_builds ["r"] cx_tree_nested ↔
      ∃ q, ["r", "sub"] = ["r"] ++ q ∧
        (∃ u, subtree cx_tree_nested q = some u ∧ u.markerOf = some cx_raw_next) ∧
        (∀ q1 q2, q = q1 ++ q2 → q2 ≠ [] →
          ∃ u1, subtree cx_tree_nested q1 = some u1 ∧ u1.markerOf = none)) ∧
     find_builds ["r"] (DirTree.node none .nil) = []) :=
  ⟨by decide, claim_C8_amended ["r"] ["r", "sub"] cx_raw_next cx_tree_nested (by decide)⟩

/-- C6: with no explicitly designated baseline (a falsy `base_set`), the
buildset literally named `base` is auto-selected as baseline iff it is
among the observed buildset names and more than one buildset was
observed; and whenever no baseline ends up designated, every rendered
row (header included) has only the six base columns. -/
theorem claim_C6 (bs0 : Option String) (sets : Finset String) (data : Dataset)
    (hfalsy : truthy bs0 = false) :
    (select_base_set bs0 sets = some "base" ↔
      ("base" ∈ sets ∧ 1 < sets.card)) ∧
    (truthy (select_base_set bs0 sets) = false →
      ∀ row ∈ report_rows data (select_base_set bs0 sets), row.length = 6) := by
  constructor
  · unfold select_base_set
    by_cases hC : 1 < sets.card ∧ truthy bs0 = false ∧ "base" ∈ sets
    · rw [if_pos hC]
      exact ⟨fun _ => ⟨hC.2.2, hC.1⟩, fun _ => rfl⟩
    · rw [if_neg hC]
      constructor
      · intro he
        exfalso
        rw [he] at hfalsy
        rw [truthy] at hfalsy
        simp at hfalsy
      · intro ⟨h1, h2⟩
        exact absurd ⟨h2, hfalsy, h1⟩ hC
  · intro hres row hrow
    unfold report_rows at hrow
    rcases List.mem_cons.mp hrow with hrow | hrow
    · rw [hrow]
      exact build_report_row_len_of_not_truthy _ hres
    · rcases List.mem_map.mp hrow with ⟨kb, _, he⟩
      rw [← he]
      exact build_report_row_len_of_not_truthy _ hres

/-- C6 witness. -/
theorem claim_C6_witness :
    truthy none = false ∧
    ((select_base_set none {"base", "next"} = some "base" ↔
      ("base" ∈ ({"base", "next"} : Finset String) ∧
        1 < ({"base", "next"} : Finset String).card)) ∧
     (truthy (select_base_set none {"base", "next"}) = false →
      ∀ row ∈ report_rows cx_data1 (select_base_set none {"base", "next"}),
        row.length = 6)) :=
  ⟨rfl, claim_C6 none {"base", "next"} cx_data1 rfl⟩

/-- C5: for every record whose baseline counterpart is absent, the delta
engine (when it completes) sets `delta_status = 'No base'`, leaves both
size-delta fields absent, writes the warning naming the record's
buildset, sketch and board to stderr, and continues processing: every
dataset record is still present in the output. -/
theorem claim_C5 {data : Dataset} {base : String} {res : Dataset × List String}
    {k : Key} {b : Build}
    (hnd : (data.map Prod.fst).Nodup)
    (h : add_delta_info data base = .ok res)
    (hb : lookupD data k = some b)
    (hnbase : b.buildset ≠ base)
    (hmiss : lookupD data (base, b.sketch_dir, b.board) = none)
    (hdp : b.delta_program_size = none) (hdd : b.delta_data_size = none) :
    ∃ b1, lookupD res.1 k = some b1 ∧
      b1.delta_status = some "No base" ∧
      b1.delta_program_size = none ∧ b1.delta_data_size = none ∧
      no_base_warning b ∈ res.2 ∧
      ∀ k2 b2, lookupD data k2 = some b2 → (lookupD res.1 k2).isSome := by
  obtain ⟨c1, _, _⟩ := add_delta_info_char hnd h
  obtain ⟨b1, ww, ha, hres, hsub⟩ := c1 k b hb
  rw [annotate_build_nobase hnbase hmiss] at ha
  have hp := Except.ok.inj ha
  rw [Prod.mk.injEq] at hp
  obtain ⟨h1, h2⟩ := hp
  subst h1
  subst h2
  refine ⟨_, hres, rfl, hdp, hdd, hsub _ (by simp), ?_⟩
  intro k2 b2 hb2
  obtain ⟨b3, ww3, _, hl3, _⟩ := c1 k2 b2 hb2
  rw [hl3]
  rfl

/-- C5 witness. -/
theorem claim_C5_witness :
    (cx_data1.map Prod.fst).Nodup ∧
    lookupD cx_data1 ("next", "blink", "uno") = some cx_build_ok_next ∧
    cx_build_ok_next.buildset ≠ "base" ∧
    lookupD cx_data1 ("base", "blink", "uno") = none ∧
    (∃ b1, lookupD
        [(("next", "blink", "uno"),
          { cx_build_ok_next with
            is_base := some "No"
            delta_status := some "No base" })] ("next", "blink", "uno") = some b1 ∧
      b1.delta_status = some "No base" ∧
      b1.delta_program_size = none ∧ b1.delta_data_size = none ∧
      no_base_warning cx_build_ok_next ∈
        [no_base_warning cx_build_ok_next] ∧
      ∀ k2 b2, lookupD cx_data1 k2 = some b2 →
        (lookupD [(("next", "blink", "uno"),
          { cx_build_ok_next with
            is_base := some "No"
            delta_status := some "No base" })] k2).isSome) := by
  have h : add_delta_info cx_data1 "base" =
      .ok ([(("next", "blink", "uno"),
             { cx_build_ok_next with
               is_base := some "No"
               delta_status := some "No base" })],
           [no_base_warning cx_build_ok_next]) := by rfl
  exact ⟨by decide, by rfl, by decide, by rfl,
    claim_C5 (by decide) h (by rfl) (by decide) (by rfl) rfl rfl⟩

/-- C10: an explicitly designated (truthy) baseline name is never
replaced by the auto-selection rule, even when no record carries that
buildset; in that case the delta pass succeeds, annotating every record
with `is_base = 'No'` and `delta_status = 'No base'`; and in any
successful delta pass whatsoever, every record receives an `is_base`
annotation. -/
theorem claim_C10 (s : String) (sets : Finset String) (data : Dataset)
    (hs : s ≠ "")
    (hwf : ∀ p ∈ data, p.1 = (p.2.buildset, p.2.sketch_dir, p.2.board))
    (hnd : (data.map Prod.fst).Nodup)
    (hnb : ∀ p ∈ data, p.2.buildset ≠ s) :
    select_base_set (some s) sets = some s ∧
    (∃ res, add_delta_info data s = .ok res ∧
      (∀ k b, lookupD data k = some b →
        lookupD res.1 k =
          some { b with is_base := some "No", delta_status := some "No base" }) ∧
      ∀ k2 b2, lookupD res.1 k2 = some b2 → b2.is_base.isSome) ∧
    (∀ (data2 : Dataset) (base2 : String) (res2 : Dataset × List String),
      (data2.map Prod.fst).Nodup → add_delta_info data2 base2 = .ok res2 →
      ∀ k b, lookupD data2 k = some b →
        ∃ b3, lookupD res2.1 k = some b3 ∧ b3.is_base.isSome) := by
  refine ⟨?_, ?_, ?_⟩
  · unfold select_base_set
    rw [if_neg]
    intro hC
    have ht := hC.2.1
    rw [truthy] at ht
    simp [hs] at ht
  · obtain ⟨res, hres⟩ := add_delta_info_nobase_ok hwf hnb
    obtain ⟨c1, c2, _⟩ := add_delta_info_char hnd hres
    refine ⟨res, hres, ?_, ?_⟩
    · intro k b hb
      obtain ⟨b1, ww, ha, hlook, _⟩ := c1 k b hb
      rw [annotate_build_nobase (hnb _ (mem_of_lookupD hb))
        (lookupD_base_none hwf hnb _ _)] at ha
      have hp := Except.ok.inj ha
      rw [Prod.mk.injEq] at hp
      rw [hlook, ← hp.1]
    · intro k2 b2 hb2
      have hk2 : k2 ∈ data.map Prod.fst := by
        rw [← c2]
        exact mem_keys_of_lookupD hb2
      rcases hd : lookupD data k2 with _ | b0
      · rw [lookupD_eq_none_iff] at hd
        exact absurd hk2 hd
      · obtain ⟨b1, ww, ha, hlook, _⟩ := c1 k2 b0 hd
        rw [hb2] at hlook
        obtain rfl : b2 = b1 := Option.some.inj hlook.symm |>.symm
        exact annotate_is_base ha
  · intro data2 base2 res2 hnd2 h2 k b hb
    obtain ⟨c1, _, _⟩ := add_delta_info_char hnd2 h2
    obtain ⟨b3, ww, ha, hl, _⟩ := c1 k b hb
    exact ⟨b3, hl, annotate_is_base ha⟩

/-- C10 witness. -/
theorem claim_C10_witness :
    ("other" : String) ≠ "" ∧
    (∀ p ∈ cx_data1, p.1 = (p.2.buildset, p.2.sketch_dir, p.2.board)) ∧
    (cx_data1.map Prod.fst).Nodup ∧
    (∀ p ∈ cx_data1, p.2.buildset ≠ "other") ∧
    select_base_set (some "other") {"base"} = some "other" := by
  have h := claim_C10 "other" {"base"} cx_data1 (by decide) (by decide)
    (by decide) (by decide)
  exact ⟨by decide, by decide, by decide, by decide, h.1⟩

/-- C3: for every non-baseline record whose baseline counterpart exists,
a completed delta pass classifies `delta_status` by the 2x2 matrix of
(record OK, baseline OK) — Identical/Modified by content-hash equality
when both are OK, Fixed when only the record is OK, Broken when only the
baseline is OK, Still broken when neither — and sets
`delta_program_size`/`delta_data_size` to the size differences exactly
when both are OK, leaving them absent otherwise. -/
theorem claim_C3 {data : Dataset} {base : String} {res : Dataset × List String}
    {k : Key} {b bb : Build}
    (hnd : (data.map Prod.fst).Nodup)
    (h : add_delta_info data base = .ok res)
    (hb : lookupD data k = some b)
    (hnbase : b.buildset ≠ base)
    (hbb : lookupD data (base, b.sketch_dir, b.board) = some bb)
    (hdp : b.delta_program_size = none) (hdd : b.delta_data_size = none) :
    ∃ b1, lookupD res.1 k = some b1 ∧
      ((b.status = some "OK" ∧ bb.status = some "OK" →
         ∃ h1 h2 p1 p2 d1 d2, b.hash = some h1 ∧ bb.hash = some h2 ∧
           b.program_size = some p1 ∧ bb.program_size = some p2 ∧
           b.data_size = some d1 ∧ bb.data_size = some d2 ∧
           b1.delta_status = some (if h1 = h2 then "Identical" else "Modified") ∧
           b1.delta_program_size = some (p1 - p2) ∧
           b1.delta_data_size = some (d1 - d2)) ∧
       (b.status = some "OK" ∧ ¬bb.status = some "OK" →
         b1.delta_status = some "Fixed" ∧
         b1.delta_program_size = none ∧ b1.delta_data_size = none) ∧
       (¬b.status = some "OK" ∧ bb.status = some "OK" →
         b1.delta_status = some "Broken" ∧
         b1.delta_program_size = none ∧ b1.delta_data_size = none) ∧
       (¬b.status = some "OK" ∧ ¬bb.status = some "OK" →
         b1.delta_status = some "Still broken" ∧
         b1.delta_program_size = none ∧ b1.delta_data_size = none)) := by
  obtain ⟨c1, _, _⟩ := add_delta_info_char hnd h
  obtain ⟨b1, ww, ha, hres, _⟩ := c1 k b hb
  rw [annotate_build_nonbase hnbase hbb] at ha
  obtain ⟨hboth, hnot⟩ := classify_spec ha
  refine ⟨b1, hres, ?_, ?_, ?_, ?_⟩
  · intro hok
    obtain ⟨h1, h2, p1, p2, d1, d2, hh1, hh2, hp1, hp2, hd1, hd2, hb1, _⟩ :=
      hboth ⟨hok.1, hok.2⟩
    refine ⟨h1, h2, p1, p2, d1, d2, hh1, hh2, hp1, hp2, hd1, hd2, ?_, ?_, ?_⟩
    · rw [hb1]
    · rw [hb1]
    · rw [hb1]
  · intro hcase
    obtain ⟨hb1, _⟩ := hnot (fun hcon => hcase.2 hcon.2)
    rw [hb1]
    refine ⟨?_, hdp, hdd⟩
    simp only [hcase.1]
    simp [if_pos]
  · intro hcase
    obtain ⟨hb1, _⟩ := hnot (fun hcon => hcase.1 hcon.1)
    rw [hb1]
    refine ⟨?_, hdp, hdd⟩
    simp only [hcase.1, hcase.2]
    simp [hcase.1]
  · intro hcase
    obtain ⟨hb1, _⟩ := hnot (fun hcon => hcase.1 hcon.1)
    rw [hb1]
    refine ⟨?_, hdp, hdd⟩
    simp [hcase.1, hcase.2]

/-- C3 witness: a `next` record compared against its `base` counterpart,
both `OK` with different hashes, yields `Modified` and size deltas. -/
theorem claim_C3_witness :
    (cx_data2.map Prod.fst).Nodup ∧
    lookupD cx_data2 ("next", "blink", "uno") = some cx_build_ok_next ∧
    cx_build_ok_next.buildset ≠ "base" ∧
    lookupD cx_data2 ("base", "blink", "uno") = some cx_build_ok_base ∧
    (∃ b1, lookupD
        [(("base", "blink", "uno"),
          { cx_build_ok_base with
            is_base := some "Yes"
            delta_status := some "Is base"
            delta_program_size := some 0
            delta_data_size := some 0 }),
         (("next", "blink", "uno"),
          { cx_build_ok_next with
            is_base := some "No"
            delta_status := some "Modified"
            delta_program_size := some 200
            delta_data_size := some 0 })] ("next", "blink", "uno") = some b1 ∧
      ((cx_build_ok_next.status = some "OK" ∧ cx_build_ok_base.status = some "OK" →
         ∃ h1 h2 p1 p2 d1 d2, cx_build_ok_next.hash = some h1 ∧
           cx_build_ok_base.hash = some h2 ∧
           cx_build_ok_next.program_size = some p1 ∧
           cx_build_ok_base.program_size = some p2 ∧
           cx_build_ok_next.data_size = some d1 ∧
           cx_build_ok_base.data_size = some d2 ∧
           b1.delta_status = some (if h1 = h2 then "Identical" else "Modified") ∧
           b1.delta_program_size = some (p1 - p2) ∧
           b1.delta_data_size = some (d1 - d2)) ∧
       (cx_build_ok_next.status = some "OK" ∧
          ¬cx_build_ok_base.status = some "OK" →
         b1.delta_status = some "Fixed" ∧
         b1.delta_program_size = none ∧ b1.delta_data_size = none) ∧
       (¬cx_build_ok_next.status = some "OK" ∧
          cx_build_ok_base.status = some "OK" →
         b1.delta_status = some "Broken" ∧
         b1.delta_program_size = none ∧ b1.delta_data_size = none) ∧
       (¬cx_build_ok_next.status = some "OK" ∧
          ¬cx_build_ok_base.status = some "OK" →
         b1.delta_status = some "Still broken" ∧
         b1.delta_program_size = none ∧ b1.delta_data_size = none))) := by
  have h : add_delta_info cx_data2 "base" =
      .ok ([(("base", "blink", "uno"),
             { cx_build_ok_base with
               is_base := some "Yes"
               delta_status := some "Is base"
               delta_program_size := some 0
               delta_data_size := some 0 }),
            (("next", "blink", "uno"),
             { cx_build_ok_next with
               is_base := some "No"
               delta_status := some "Modified"
               delta_program_size := some 200
               delta_data_size := some 0 })], []) := by rfl
  exact ⟨by decide, by rfl, by decide, by rfl,
    claim_C3 (by decide) h (by rfl) (by decide) (by rfl) rfl rfl⟩

/-- C7: every successful report run emits one header row followed by the
record rows of the (possibly delta-annotated) dataset in strictly
ascending lexicographic order of the composite key (buildset, then
sketch, then board), read off the first three cells of each row; and the
run is deterministic: rendering the same input again yields the same
rows and messages. -/
theorem claim_C7 {env : Env} {root : List String} {tree : DirTree}
    {bs0 : Option String} {rows : List (List String)} {msgs : List String}
    (h : report_pipeline env root tree bs0 = .ok (rows, msgs)) :
    (∃ (d2 : Dataset) (bs : Option String),
      rows = build_report_row header_get bs ::
        (sort_data d2).map (fun kb => build_report_row (build_get kb.2) bs)) ∧
    List.Chain' (fun r1 r2 => key_lt (row_key r1) (row_key r2)) rows.tail ∧
    (∀ rows2 msgs2, report_pipeline env root tree bs0 = .ok (rows2, msgs2) →
      rows2 = rows ∧ msgs2 = msgs) := by
  have h0 := h
  unfold report_pipeline at h
  split at h
  · exact Except.noConfusion h
  · rename_i data sets heq
    dsimp only at h
    split at h
    · exact Except.noConfusion h
    · rename_i r hrd
      have hp := Except.ok.inj h
      rw [Prod.mk.injEq] at hp
      obtain ⟨hrows, hmsgs⟩ := hp
      obtain ⟨hwf, hnd⟩ := create_report_data_spec heq
      obtain ⟨hwf1, hnd1⟩ := run_delta_wf (fun p hp => (hwf p hp).1) hnd hrd
      refine ⟨⟨r.1, select_base_set bs0 sets, hrows.symm⟩, ?_, ?_⟩
      · rw [← hrows]
        exact report_rows_chain _ hwf1 hnd1
      · intro rows2 msgs2 h2
        rw [h0] at h2
        have hp2 := Except.ok.inj h2
        rw [Prod.mk.injEq] at hp2
        exact ⟨hp2.1.symm, hp2.2.symm⟩

/-- C7 witness. -/
theorem claim_C7_witness :
    report_pipeline cx_env_fail ["r"] cx_tree_two none =
      .ok ([["Buildset", "Sketch", "Board", "Status", "Program size",
             "Data size", "Δ status", "Δ program size", "Δ data size",
             "In base buildset"],
            ["base", "blink", "uno", "Failed to compile", "", "",
             "Is base", "", "", "Yes"],
            ["next", "blink", "uno", "Failed to compile", "", "",
             "Still broken", "", "", "No"]], []) ∧
    List.Chain' (fun r1 r2 => key_lt (row_key r1) (row_key r2))
      ([["Buildset", "Sketch", "Board", "Status", "Program size",
         "Data size", "Δ status", "Δ program size", "Δ data size",
         "In base buildset"],
        ["base", "blink", "uno", "Failed to compile", "", "",
         "Is base", "", "", "Yes"],
        ["next", "blink", "uno", "Failed to compile", "", "",
         "Still broken", "", "", "No"]] : List (List String)).tail := by
  have h : report_pipeline cx_env_fail ["r"] cx_tree_two none =
      .ok ([["Buildset", "Sketch", "Board", "Status", "Program size",
             "Data size", "Δ status", "Δ program size", "Δ data size",
             "In base buildset"],
            ["base", "blink", "uno", "Failed to compile", "", "",
             "Is base", "", "", "Yes"],
            ["next", "blink", "uno", "Failed to compile", "", "",
             "Still broken", "", "", "No"]], []) := by rfl
  exact ⟨h, (claim_C7 h).2.1⟩

/-- C4 counterexample: two scanned record directories carrying the same
composite key produce a single dataset entry and a single report row
(last write wins): two scanned records, but only one non-header row, so
a scanned record is silently dropped from the output. -/
theorem claim_C4_counterexample :
    (find_builds ["r"] cx_tree_dup).length = 2 ∧
    report_pipeline cx_env_fail ["r"] cx_tree_dup none =
      .ok ([["Buildset", "Sketch", "Board", "Status", "Program size",
             "Data size"],
            ["base", "blink", "uno", "Failed to compile", "", ""]], []) :=
  ⟨rfl, rfl⟩

/-- C4 (amended): every successful report run has exactly one row per
dataset entry: one header row plus one row per scanned record whenever
the scanned records have pairwise distinct composite keys, and in that
case the multiset of row keys (first three cells) equals the multiset of
scanned record keys; records sharing a key are collapsed last-write-wins
instead. -/
theorem claim_C4_amended {env : Env} {root : List String} {tree : DirTree}
    {bs0 : Option String} {rows : List (List String)} {msgs : List String}
    (h : report_pipeline env root tree bs0 = .ok (rows, msgs))
    (hnd : ((find_builds root tree).map scanned_key).Nodup) :
    rows.length = 1 + (find_builds root tree).length ∧
    List.Perm (rows.tail.map row_key)
      ((find_builds root tree).map scanned_key) := by
  unfold report_pipeline at h
  split at h
  · exact Except.noConfusion h
  · rename_i data sets heq
    dsimp only at h
    split at h
    · exact Except.noConfusion h
    · rename_i r hrd
      have hp := Except.ok.inj h
      rw [Prod.mk.injEq] at hp
      obtain ⟨hrows, hmsgs⟩ := hp
      obtain ⟨hwf, hnd0⟩ := create_report_data_spec heq
      have hkeys0 := create_report_data_keys heq hnd
      obtain ⟨hkeys1, _⟩ := run_delta_spec hnd0 hrd
      obtain ⟨hwf1, hnd1⟩ := run_delta_wf (fun p hp => (hwf p hp).1) hnd0 hrd
      have htail : rows.tail =
          (sort_data r.1).map
            (fun kb => build_report_row (build_get kb.2) (select_base_set bs0 sets)) := by
        rw [← hrows]
        rfl
      have hmapkeys : rows.tail.map row_key = (sort_data r.1).map Prod.fst := by
        rw [htail, List.map_map]
        apply List.map_congr_left
        intro kb hkb
        have hw := hwf1 kb ((sort_data_perm r.1).mem_iff.mp hkb)
        show row_key (build_report_row (build_get kb.2) (select_base_set bs0 sets)) = kb.1
        rw [build_report_row_key, hw]
      constructor
      · rw [← hrows]
        show ((sort_data r.1).map
          (fun kb => build_report_row (build_get kb.2) (select_base_set bs0 sets))).length + 1
            = 1 + (find_builds root tree).length
        have h2 : r.1.map Prod.fst = (find_builds root tree).map scanned_key := by
          rw [hkeys1, hkeys0]
        have hlen := congrArg List.length h2
        rw [List.length_map, List.length_map] at hlen
        rw [List.length_map, (sort_data_perm r.1).length_eq, Nat.add_comm, hlen]
      · rw [hmapkeys]
        have hperm := (sort_data_perm r.1).map Prod.fst
        rw [hkeys1, hkeys0] at hperm
        exact hperm

/-- C4 witness. -/
theorem claim_C4_witness :
    ((find_builds ["r"] cx_tree_two).map scanned_key).Nodup ∧
    report_pipeline cx_env_fail ["r"] cx_tree_two none =
      .ok ([["Buildset", "Sketch", "Board", "Status", "Program size",
             "Data size", "Δ status", "Δ program size", "Δ data size",
             "In base buildset"],
            ["base", "blink", "uno", "Failed to compile", "", "",
             "Is base", "", "", "Yes"],
            ["next", "blink", "uno", "Failed to compile", "", "",
             "Still broken", "", "", "No"]], []) ∧
    ([["Buildset", "Sketch", "Board", "Status", "Program size",
       "Data size", "Δ status", "Δ program size", "Δ data size",
       "In base buildset"],
      ["base", "blink", "uno", "Failed to compile", "", "",
       "Is base", "", "", "Yes"],
      ["next", "blink", "uno", "Failed to compile", "", "",
       "Still broken", "", "", "No"]] : List (List String)).length =
      1 + (find_builds ["r"] cx_tree_two).length := by
  have h : report_pipeline cx_env_fail ["r"] cx_tree_two none =
      .ok ([["Buildset", "Sketch", "Board", "Status", "Program size",
             "Data size", "Δ status", "Δ program size", "Δ data size",
             "In base buildset"],
            ["base", "blink", "uno", "Failed to compile", "", "",
             "Is base", "", "", "Yes"],
            ["next", "blink", "uno", "Failed to compile", "", "",
             "Still broken", "", "", "No"]], []) := by rfl
  exact ⟨by decide, h, (claim_C4_amended h (by decide)).1⟩
